import Mathlib

/-!
Shallow embedding of the `wasi-test` harness (`src/compat.py`, `src/build.py`)
and proofs about its specified behaviour.

`compat.py` drives compiled wasm artifacts through five runtime adapters
(`deno`, `node`, `wasmer`, `wasmtime`, `wasmedge`), grades each run against a
JSON configuration, and prints a per-cell `ok`/`FAILED` status.  `build.py`
compiles test sources and persists the configuration extracted from a leading
comment block.  Python dictionaries loaded from JSON are modelled as records
with optional fields (key present / key absent); Python exceptions are
modelled with an explicit exception type and `Except`.
-/

namespace WasiTest

/-- Exceptions that the harness code can raise.  `assertionError` comes from
the `assert` statements in `assert_result`, `timeoutExpired` from
`subprocess.run(..., timeout=...)`, `calledProcessError` from
`subprocess.check_call`, `oserror` from launching a missing executable, and
`indexError` from an out-of-range list subscript. -/
inductive PyException where
  | assertionError
  | timeoutExpired
  | calledProcessError
  | oserror
  | indexError
deriving DecidableEq

/-- Result of `subprocess.run(..., capture_output=True, encoding='utf8')`
(compat.py line 31): decoded stdout and stderr plus the exit status. -/
structure RunResult where
  stdout : String
  stderr : String
  returncode : Int
deriving DecidableEq

/-- The test configuration dictionary produced by `json.load` in
`load_config` (compat.py lines 23-28).  Each optional field models presence
of the corresponding JSON key; the code reads every key with
`config.get(key, default)` or `config.get(key)`.  `timeout` is the
`timeoutSeconds` of the specification (JSON key `timeout`); numeric values
are modelled as integers. -/
structure Config where
  stdin : Option String := none
  env : Option (List (String × String)) := none
  args : Option (List String) := none
  preopens : Option (List (String × String)) := none
  stdout : Option String := none
  stderr : Option String := none
  exitCode : Option Int := none
  timeout : Option Int := none
deriving DecidableEq

/-- `assert_result` (compat.py lines 12-15): the three `assert` statements
succeed exactly when captured stdout, stderr and exit status equal the
expected values, with defaults `''`, `''` and `0`. -/
def assert_result (actual : RunResult) (expected : Config) : Bool :=
  actual.stdout == expected.stdout.getD "" &&
  actual.stderr == expected.stderr.getD "" &&
  actual.returncode == expected.exitCode.getD 0

/-- Abstraction of one run of the external runtime command: how long the
guest process would run and what it would produce if allowed to finish.
Durations are in seconds. -/
structure GuestBehavior where
  duration : Rat
  result : RunResult

/-- `subprocess.run(cmd, ..., timeout=t, capture_output=True)` semantics:
if the process runs longer than `t` seconds, the child is killed and
`TimeoutExpired` is raised; otherwise the captured result is returned. -/
def subprocess_run (b : GuestBehavior) (timeout : Rat) : Except PyException RunResult :=
  if timeout < b.duration then .error .timeoutExpired else .ok b.result

/-- `test` (compat.py lines 30-32): run the command with
`timeout=config.get('timeout', 5)` and grade the result with
`assert_result`.  A normal return is `.ok ()`; a timeout or a failed
assertion surfaces as the corresponding exception. -/
def test (b : GuestBehavior) (config : Config) : Except PyException Unit :=
  match subprocess_run b ((config.timeout.getD 5 : Int) : Rat) with
  | .error e => .error e
  | .ok result => if assert_result result config then .ok () else .error .assertionError

/-- The per-cell status word written by `main` (compat.py lines 235-239):
`ok` when the adapter call returns normally, `FAILED` when any exception is
raised (the colour escape codes around the word are omitted). -/
def cellStatus (r : Except PyException Unit) : String :=
  match r with
  | .ok _ => "ok"
  | .error _ => "FAILED"

/-! ### Runtime adapters (compat.py lines 34-198) -/

/-- The five adapters, listed in the iteration order of the `tests`
dictionary in `main` (compat.py lines 204-210). -/
inductive AdapterName where
  | deno
  | node
  | wasmer
  | wasmtime
  | wasmedge
deriving DecidableEq

/-- Iteration order of `for name in tests` (compat.py line 229): Python
dictionaries preserve insertion order. -/
def adapterOrder : List AdapterName := [.deno, .node, .wasmer, .wasmtime, .wasmedge]

/-- Per-key `--env KEY=VALUE` flags (compat.py lines 119-123, 144-148,
178-182; the same loop appears in all three native adapters). -/
def env_flags (env : List (String × String)) : List String :=
  env.flatMap (fun p => ["--env", p.1 ++ "=" ++ p.2])

/-- `wasmer` preopen flags, `--mapdir GUEST:HOST` with a single `:`
separator (compat.py lines 125-129). -/
def wasmer_mapdir_flags (preopens : List (String × String)) : List String :=
  preopens.flatMap (fun p => ["--mapdir", p.1 ++ ":" ++ p.2])

/-- `wasmtime` preopen flags, `--mapdir GUEST::HOST` with a double `::`
separator (compat.py lines 150-154). -/
def wasmtime_mapdir_flags (preopens : List (String × String)) : List String :=
  preopens.flatMap (fun p => ["--mapdir", p.1 ++ "::" ++ p.2])

/-- `wasmedge` preopen flags, `--dir GUEST:HOST` (compat.py lines
184-188). -/
def wasmedge_dir_flags (preopens : List (String × String)) : List String :=
  preopens.flatMap (fun p => ["--dir", p.1 ++ ":" ++ p.2])

/-- The command built by `test_wasmer` (compat.py lines 115-139): the
artifact path right after `wasmer run`, then env and preopen flags, then
`--` and the extra args (the `--` and args only when the `args` key is
present). -/
def test_wasmer_cmd (filepath : String) (config : Config) : List String :=
  ["wasmer", "run", filepath]
    ++ (match config.env with | none => [] | some env => env_flags env)
    ++ (match config.preopens with | none => [] | some ps => wasmer_mapdir_flags ps)
    ++ (match config.args with | none => [] | some args => "--" :: args)

/-- The command built by `test_wasmtime` (compat.py lines 141-165): env and
preopen flags, then the artifact path, then `--` and the extra args. -/
def test_wasmtime_cmd (filepath : String) (config : Config) : List String :=
  ["wasmtime", "run"]
    ++ (match config.env with | none => [] | some env => env_flags env)
    ++ (match config.preopens with | none => [] | some ps => wasmtime_mapdir_flags ps)
    ++ [filepath]
    ++ (match config.args with | none => [] | some args => "--" :: args)

/-- Last index of `c` in `cs`, or `none`; models Python `str.rfind`. -/
def rfindIdx (c : Char) : List Char → Option Nat
  | [] => none
  | x :: xs =>
    match rfindIdx c xs with
    | some i => some (i + 1)
    | none => if x = c then some 0 else none

/-- `os.path.splitext` (Python `genericpath._splitext` with `sep='/'`,
`extsep='.'`): split at the last dot, unless that dot lies before the last
path separator or the basename up to it consists only of dots (leading dots
of a hidden file never start an extension). -/
def py_splitext (p : String) : String × String :=
  let cs := p.data
  match rfindIdx '.' cs with
  | none => (p, "")
  | some dotIdx =>
    let sepIdx : Nat := match rfindIdx '/' cs with | none => 0 | some i => i + 1
    if dotIdx < sepIdx then (p, "")
    else if ((cs.drop sepIdx).take (dotIdx - sepIdx)).all (fun c => c = '.') then (p, "")
    else (⟨cs.take dotIdx⟩, ⟨cs.drop dotIdx⟩)

/-- `test_wasmedge` first derives the ahead-of-time compiled object path:
`basename, ext = os.path.splitext(filepath); so = basename + '.so'`
(compat.py lines 169-171). -/
def wasmedge_so (filepath : String) : String := (py_splitext filepath).1 ++ ".so"

/-- The compile sub-step command `['wasmedgec', filepath, so]` run with
`subprocess.check_call` (compat.py lines 173-174). -/
def wasmedgec_cmd (filepath : String) : List String :=
  ["wasmedgec", filepath, wasmedge_so filepath]

/-- The command built by `test_wasmedge` after compilation (compat.py lines
176-196): env and `--dir` flags, then the compiled `.so`, then the extra
args appended directly (no `--`). -/
def test_wasmedge_cmd (filepath : String) (config : Config) : List String :=
  ["wasmedge"]
    ++ (match config.env with | none => [] | some env => env_flags env)
    ++ (match config.preopens with | none => [] | some ps => wasmedge_dir_flags ps)
    ++ [wasmedge_so filepath]
    ++ (match config.args with | none => [] | some args => args)

/-- `test_deno` rewrites the shared config dictionary before serializing it
for the glue program (compat.py lines 63-67): an absent `env` key is set to
`{}` and an absent `args` key to `[]`.  This mutates the caller's
dictionary in place. -/
def deno_normalize (config : Config) : Config :=
  let c := match config.env with | none => { config with env := some [] } | some _ => config
  match c.args with | none => { c with args := some [] } | some _ => c

/-- `test_node` performs the same in-place rewrite (compat.py lines
104-108). -/
def node_normalize (config : Config) : Config :=
  let c := match config.env with | none => { config with env := some [] } | some _ => config
  match c.args with | none => { c with args := some [] } | some _ => c

/-- Host command built by `test_deno` (compat.py lines 34-72): glue script
path, then the JSON-serialized config, then the artifact path. -/
def test_deno_cmd (gluePath configJson filepath : String) : List String :=
  ["deno", "run", "--quiet", "--allow-all", "--unstable", gluePath, configJson, filepath]

/-- Host command built by `test_node` (compat.py lines 74-113). -/
def test_node_cmd (gluePath configJson filepath : String) : List String :=
  ["node", "--no-warnings", "--experimental-wasi-unstable-preview1",
   "--experimental-wasm-bigint", gluePath, configJson, filepath]

/-- Guest argv constructed inside the deno glue program (compat.py line
50): `args: [Deno.args[1], ...config.args]`, where `Deno.args[1]` is the
artifact path.  Spreading `config.args` needs the key to be present, hence
the `Option`. -/
def deno_guest_argv (filepath : String) (config : Config) : Option (List String) :=
  config.args.map (fun args => filepath :: args)

/-- Guest argv constructed inside the node glue program (compat.py line
91): `args: [process.argv[3], ...config.args]`. -/
def node_guest_argv (filepath : String) (config : Config) : Option (List String) :=
  config.args.map (fun args => filepath :: args)

/-! ### Matrix orchestrator (compat.py lines 200-241) -/

/-- The artifact loop of `main` (compat.py lines 212-241), parametrized by
the outcome of each adapter invocation (`runCell`) and by the configuration
each candidate file loads to (`configAt`).  Each artifact comes with the
list of glob matches for its config pattern (lines 217-218).  The code runs
`config = load_config(matches[0])`: an empty match list raises `IndexError`
(uncaught, so it aborts the whole loop), and with several matches the first
is used silently.  Each adapter then runs inside `try/except`, so adapter
exceptions only determine the cell's status word. -/
def main_loop (runCell : String → Config → AdapterName → Except PyException Unit)
    (configAt : String → Config) :
    List (String × List String) → Except PyException (List (String × List String))
  | [] => .ok []
  | (filepath, found) :: rest =>
    match found with
    | [] => .error .indexError
    | m :: _ =>
      let config := configAt m
      let row := adapterOrder.map (fun name => cellStatus (runCell filepath config name))
      (main_loop runCell configAt rest).map (fun rows => (filepath, row) :: rows)

/-! ### Filesystem footprint (claim C10) -/

/-- Filesystem paths, modelled as segment lists: `dir ++ [name]` is the
entry `name` inside directory `dir`. -/
abbrev FsPath := List String

/-- `p` lies strictly inside the directory `dir`. -/
def pathUnder (dir p : FsPath) : Prop := dir <+: p ∧ dir ≠ p

instance (dir p : FsPath) : Decidable (pathUnder dir p) :=
  inferInstanceAs (Decidable (dir <+: p ∧ dir ≠ p))

/-- The scratch directory: `ensure_empty_dir('scratch')` (compat.py line
230) resolves the relative path against the harness process working
directory, not the per-case workspace. -/
def scratch_dir (cwd : FsPath) : FsPath := cwd ++ ["scratch"]

/-- The per-case fixture snapshot:
`shutil.copytree("fixtures", os.path.join(workdir, "fixtures"), symlinks=True)`
(compat.py line 222). -/
def fixtures_snapshot (workdir : FsPath) : FsPath := workdir ++ ["fixtures"]

/-- `wasmedge_so` in the segment model: the compiled object is created next
to the artifact, inside the artifact tree. -/
def wasmedge_so_path (artifact : FsPath) : FsPath :=
  match artifact.getLast? with
  | none => []
  | some n => artifact.dropLast ++ [(py_splitext n).1 ++ ".so"]

/-- The files the harness itself creates during one adapter invocation
(files written by the guest program are out of scope): `test_deno` writes
`.deno.ts` (compat.py line 41) and `test_node` writes `.node.js` (line 81),
both relative to the harness process working directory `cwd`;
`test_wasmedge` has `wasmedgec` write the compiled `.so` next to the
artifact (lines 169-174); `test_wasmer` and `test_wasmtime` create
nothing. -/
def harness_writes : AdapterName → FsPath → FsPath → FsPath → List FsPath
  | .deno, cwd, _workdir, _artifact => [cwd ++ [".deno.ts"]]
  | .node, cwd, _workdir, _artifact => [cwd ++ [".node.js"]]
  | .wasmer, _cwd, _workdir, _artifact => []
  | .wasmtime, _cwd, _workdir, _artifact => []
  | .wasmedge, _cwd, _workdir, artifact => [wasmedge_so_path artifact]

/-! ### build.py: prelude extraction (build.py lines 14-23) -/

/-- Whether the two-character comment marker `//` occurs somewhere in a
line. -/
def hasMarker : List Char → Bool
  | [] => false
  | '/' :: '/' :: _ => true
  | _ :: rest => hasMarker rest

/-- Worker behind Python's `line.split('//')`: scan left to right,
collecting the current chunk in `acc` (reversed) and starting a new chunk
after each non-overlapping occurrence of `//`. -/
def pySplitMarkerAux : List Char → List Char → List (List Char)
  | acc, [] => [acc.reverse]
  | acc, '/' :: '/' :: rest => acc.reverse :: pySplitMarkerAux [] rest
  | acc, c :: rest => pySplitMarkerAux (c :: acc) rest

/-- Python `line.split('//')`: the chunks of `line` between occurrences of
the marker (always at least one chunk). -/
def pySplitMarker (line : List Char) : List (List Char) := pySplitMarkerAux [] line

/-- `extract_prelude` (build.py lines 14-23) over the lines of the file as
Python iteration yields them (each line keeps its trailing newline): stop
at the first fully blank line (`line == '\n'`); otherwise accumulate
`line.split('//')[1]` — the text between the first and the second
occurrence of the marker — and a line without the marker makes the `[1]`
subscript raise `IndexError`.  Running off the end of the file returns the
accumulated text normally. -/
def extract_prelude : List (List Char) → Except PyException (List Char)
  | [] => .ok []
  | line :: rest =>
    if line = ['\n'] then .ok []
    else
      match (pySplitMarker line)[1]? with
      | none => .error .indexError
      | some seg => (extract_prelude rest).map (fun tail => seg ++ tail)

/-! ### JSON values and their canonical serialization

`build_test` persists the configuration with
`json.dumps(config, sort_keys=True, indent=2)` plus a trailing newline
(build.py lines 53-56); `load_config` reads it back with `json.load`
(compat.py lines 23-28). -/

/-- JSON values.  Python dictionaries are modelled as association lists; a
Python `dict` carries no entry order semantics of its own, so its canonical
representation here keeps the entries sorted by strictly increasing key —
exactly the order `sort_keys=True` emits.  JSON numbers are modelled as
integers: the records this harness persists carry integer exit codes and
timeouts, and float formatting is outside this model. -/
inductive Json where
  | null : Json
  | bool : Bool → Json
  | num : Int → Json
  | str : String → Json
  | arr : List Json → Json
  | obj : List (String × Json) → Json

/-- The `{` character (written by codepoint to keep it out of string and
character literals). -/
def lbrace : Char := Char.ofNat 0x7b

/-- The `}` character. -/
def rbrace : Char := Char.ofNat 0x7d

/-- Lexicographic strict order on character lists, by codepoint — the
order Python's `str` comparison uses. -/
def strLt : List Char → List Char → Bool
  | [], [] => false
  | [], _ :: _ => true
  | _ :: _, [] => false
  | x :: xs, y :: ys => if x < y then true else if y < x then false else strLt xs ys

/-- Strict key order on strings (Python `<` on `str`). -/
def keyLt (a b : String) : Bool := strLt a.data b.data

/-- Insert an entry into a key-sorted entry list (stable insertion sort
step). -/
def insertEntry (e : String × Json) : List (String × Json) → List (String × Json)
  | [] => [e]
  | f :: fs => if keyLt e.1 f.1 then e :: f :: fs else f :: insertEntry e fs

/-- Sort an entry list by key — the effect of `sort_keys=True` on one
object. -/
def sortEntries (es : List (String × Json)) : List (String × Json) :=
  es.foldr insertEntry []

mutual

/-- Recursively sort every object's entries by key (what
`json.dumps(..., sort_keys=True)` does to the whole value). -/
def sortKeysRec : Json → Json
  | .null => .null
  | .bool b => .bool b
  | .num n => .num n
  | .str s => .str s
  | .arr xs => .arr (sortKeysList xs)
  | .obj es => .obj (sortEntries (sortKeysEntries es))

/-- `sortKeysRec` mapped over array elements. -/
def sortKeysList : List Json → List Json
  | [] => []
  | x :: xs => sortKeysRec x :: sortKeysList xs

/-- `sortKeysRec` mapped over object entry values. -/
def sortKeysEntries : List (String × Json) → List (String × Json)
  | [] => []
  | (k, v) :: es => (k, sortKeysRec v) :: sortKeysEntries es

end

/-- Adjacent-pairs strict sortedness of an entry list by key. -/
def entriesSortedB : List (String × Json) → Bool
  | [] => true
  | [_] => true
  | e :: f :: rest => keyLt e.1 f.1 && entriesSortedB (f :: rest)

/-- Adjacent-pairs strict sortedness of a string-to-string mapping. -/
def pairsSortedB : List (String × String) → Bool
  | [] => true
  | [_] => true
  | a :: b :: rest => keyLt a.1 b.1 && pairsSortedB (b :: rest)

/-- Indentation: `n` spaces. -/
def pad (n : Nat) : List Char := List.replicate n ' '

/-- Lowercase hexadecimal digit, for `n < 16`. -/
def hexDigit (n : Nat) : Char :=
  if n < 10 then Char.ofNat (48 + n) else Char.ofNat (87 + n)

/-- Four lowercase hex digits of `n < 0x10000` (Python `'\\u%04x' % n`
without the lead-in). -/
def dumpHex4 (n : Nat) : List Char :=
  [hexDigit (n / 4096 % 16), hexDigit (n / 256 % 16), hexDigit (n / 16 % 16), hexDigit (n % 16)]

/-- Escape of one character in `json.dumps` with the default
`ensure_ascii=True` (CPython `py_encode_basestring_ascii`): printable
ASCII other than the quote and the backslash is emitted literally, the
seven short escapes are used where they exist, every other scalar below
`0x10000` becomes a `\\uXXXX` escape, and astral characters become a
UTF-16 surrogate pair. -/
def escapeChar (c : Char) : List Char :=
  if c = '"' then ['\\', '"']
  else if c = '\\' then ['\\', '\\']
  else if c = Char.ofNat 8 then ['\\', 'b']
  else if c = Char.ofNat 12 then ['\\', 'f']
  else if c = '\n' then ['\\', 'n']
  else if c = Char.ofNat 13 then ['\\', 'r']
  else if c = '\t' then ['\\', 't']
  else if 0x20 ≤ c.toNat ∧ c.toNat ≤ 0x7e then [c]
  else if c.toNat < 0x10000 then '\\' :: 'u' :: dumpHex4 c.toNat
  else
    ('\\' :: 'u' :: dumpHex4 (0xd800 + (c.toNat - 0x10000) / 0x400)) ++
      ('\\' :: 'u' :: dumpHex4 (0xdc00 + (c.toNat - 0x10000) % 0x400))

/-- Escape a whole string body. -/
def escapeString (s : List Char) : List Char := s.flatMap escapeChar

/-- A JSON string literal: quote, escaped body, quote. -/
def dumpStr (s : String) : List Char := '"' :: (escapeString s.data ++ ['"'])

/-- The decimal digit character of `n < 10`. -/
def digitChar (n : Nat) : Char := Char.ofNat (48 + n)

/-- Decimal digits of a natural number, most significant first, collected
in front of `acc`. -/
def natDumpAux : Nat → List Char → List Char
  | n, acc =>
    if n < 10 then digitChar n :: acc
    else natDumpAux (n / 10) (digitChar (n % 10) :: acc)
decreasing_by exact Nat.div_lt_self (by omega) (by omega)

/-- Decimal representation of a natural number. -/
def natDump (n : Nat) : List Char := natDumpAux n []

/-- Decimal representation of an integer (Python `repr` of an `int`). -/
def intDump (n : Int) : List Char :=
  if n < 0 then '-' :: natDump (-n).toNat else natDump n.toNat

mutual

/-- `json.dumps(v, indent=2)` at indentation level `ind`, over an already
key-sorted value: empty containers print as `[]`/`{}` on one line,
non-empty containers put each element on its own line indented two further
spaces, with `", "`-free separators `','` + newline and the key separator
`": "`. -/
def dumpVal : Nat → Json → List Char
  | _, .null => ['n', 'u', 'l', 'l']
  | _, .bool true => ['t', 'r', 'u', 'e']
  | _, .bool false => ['f', 'a', 'l', 's', 'e']
  | _, .num n => intDump n
  | _, .str s => dumpStr s
  | _, .arr [] => ['[', ']']
  | ind, .arr (x :: xs) =>
    '[' :: '\n' :: (pad (ind + 2) ++ (dumpVal (ind + 2) x ++
      (dumpArrItems (ind + 2) xs ++ ('\n' :: (pad ind ++ [']'])))))
  | _, .obj [] => [lbrace, rbrace]
  | ind, .obj ((k, v) :: es) =>
    lbrace :: '\n' :: (pad (ind + 2) ++ (dumpStr k ++ (':' :: ' ' ::
      (dumpVal (ind + 2) v ++
        (dumpObjItems (ind + 2) es ++ ('\n' :: (pad ind ++ [rbrace])))))))

/-- Second and later array elements: `','`, newline, indentation, value. -/
def dumpArrItems : Nat → List Json → List Char
  | _, [] => []
  | ind, x :: xs =>
    ',' :: '\n' :: (pad ind ++ (dumpVal ind x ++ dumpArrItems ind xs))

/-- Second and later object entries: `','`, newline, indentation, key,
`": "`, value. -/
def dumpObjItems : Nat → List (String × Json) → List Char
  | _, [] => []
  | ind, (k, v) :: es =>
    ',' :: '\n' :: (pad ind ++ (dumpStr k ++ (':' :: ' ' ::
      (dumpVal ind v ++ dumpObjItems ind es))))

end

/-- `json.dumps(v, sort_keys=True, indent=2)` (build.py line 55). -/
def dumps (v : Json) : List Char := dumpVal 0 (sortKeysRec v)

/-- What `build_test` writes to the `.json` file: the canonical dump plus
a trailing newline (build.py lines 54-56). -/
def persist_config (v : Json) : List Char := dumps v ++ ['\n']

/-! ### JSON parsing (`json.load`, compat.py line 26) -/

/-- The four whitespace characters `json.load` skips between tokens. -/
def isWsChar (c : Char) : Bool :=
  c = ' ' || c = '\t' || c = '\n' || c = Char.ofNat 13

/-- Drop leading JSON whitespace. -/
def skipWs : List Char → List Char
  | [] => []
  | c :: rest => if isWsChar c then skipWs rest else c :: rest

/-- Value of one hexadecimal digit (either case). -/
def hexVal (c : Char) : Option Nat :=
  if 48 ≤ c.toNat ∧ c.toNat ≤ 57 then some (c.toNat - 48)
  else if 97 ≤ c.toNat ∧ c.toNat ≤ 102 then some (c.toNat - 87)
  else if 65 ≤ c.toNat ∧ c.toNat ≤ 70 then some (c.toNat - 55)
  else none

/-- Value of a four-digit hex escape payload. -/
def parseHex4 (a b c d : Char) : Option Nat :=
  match hexVal a, hexVal b, hexVal c, hexVal d with
  | some x, some y, some z, some w => some (x * 4096 + y * 256 + z * 16 + w)
  | _, _, _, _ => none

/-- Interpret the payload `n` of a `\\uXXXX` escape read from the input:
a scalar outside the surrogate range stands for itself; a high surrogate
must be followed by a low surrogate escape and the pair is combined. -/
def parseUVal (n : Nat) (r : List Char) : Option (Char × List Char) :=
  if n < 0xd800 ∨ 0xdfff < n then some (Char.ofNat n, r)
  else if n ≤ 0xdbff then
    match r with
    | '\\' :: 'u' :: g1 :: g2 :: g3 :: g4 :: r2 =>
      match parseHex4 g1 g2 g3 g4 with
      | none => none
      | some m =>
        if 0xdc00 ≤ m ∧ m ≤ 0xdfff then
          some (Char.ofNat (0x10000 + (n - 0xd800) * 0x400 + (m - 0xdc00)), r2)
        else none
    | _ => none
  else none

/-- Decode one escape sequence (the input starts right after the
backslash), returning the decoded character and the remaining input.
Mirrors the strict `json` scanner: the nine escapes are decoded, and a
high surrogate escape followed by a low surrogate escape is combined into
one scalar via `parseUVal`.  (A lone surrogate escape is rejected here —
Python would keep it, but the resulting string is not valid Unicode and
`dumps` never emits one.) -/
def parseEscape : List Char → Option (Char × List Char)
  | '"' :: r => some ('"', r)
  | '\\' :: r => some ('\\', r)
  | '/' :: r => some ('/', r)
  | 'b' :: r => some (Char.ofNat 8, r)
  | 'f' :: r => some (Char.ofNat 12, r)
  | 'n' :: r => some ('\n', r)
  | 'r' :: r => some (Char.ofNat 13, r)
  | 't' :: r => some ('\t', r)
  | 'u' :: h1 :: h2 :: h3 :: h4 :: r =>
    match parseHex4 h1 h2 h3 h4 with
    | none => none
    | some n => parseUVal n r
  | _ => none

/-- Parse a JSON string body after the opening quote, returning the decoded
characters and the input after the closing quote.  Raw control characters
are rejected, escapes are decoded by `parseEscape`.  The fuel only bounds
the number of decoded characters; every step consumes at least one input
character, so an input's length is always enough fuel. -/
def parseStrBody : Nat → List Char → Option (List Char × List Char)
  | 0, _ => none
  | _, [] => none
  | fuel + 1, c :: rest =>
    if c = '"' then some ([], rest)
    else if c = '\\' then
      match parseEscape rest with
      | none => none
      | some (d, r) => (parseStrBody fuel r).map (fun p => (d :: p.1, p.2))
    else if c.toNat < 0x20 then none
    else (parseStrBody fuel rest).map (fun p => (c :: p.1, p.2))

/-- ASCII decimal digit test. -/
def isDigitChar (c : Char) : Bool := 48 ≤ c.toNat && c.toNat ≤ 57

/-- Split off the longest leading run of decimal digits. -/
def takeDigits : List Char → List Char × List Char
  | [] => ([], [])
  | c :: rest =>
    if isDigitChar c then
      let p := takeDigits rest
      (c :: p.1, p.2)
    else ([], c :: rest)

/-- Value of a digit run. -/
def digitsToNat (ds : List Char) : Nat :=
  ds.foldl (fun a c => a * 10 + (c.toNat - 48)) 0

/-- `true` when the input cannot continue a number literal into a float:
no fractional part or exponent marker follows the digits. -/
def expStop : List Char → Bool
  | [] => true
  | c :: _ => !(c = '.') && !(c = 'e') && !(c = 'E')

/-- Parse the digits of a number after an optional sign; a fractional part
or exponent makes the parse fail (the persisted configurations carry
integer numbers only, see `Json`). -/
def parseNumTail (neg : Bool) (s : List Char) : Option (Int × List Char) :=
  match takeDigits s with
  | (d :: ds, r) =>
    if expStop r then
      some (if neg then -(digitsToNat (d :: ds) : Int) else (digitsToNat (d :: ds) : Int), r)
    else none
  | ([], _) => none

/-- Parse a JSON number from the head of the input. -/
def parseNum : List Char → Option (Int × List Char)
  | [] => none
  | c :: rest => if c = '-' then parseNumTail true rest else parseNumTail false (c :: rest)

/-- `true` when the input cannot extend a preceding number literal: its
head is neither a digit nor a fraction/exponent marker.  Everything that
follows a value in `dumps` output (a comma, a newline, a closing bracket,
or nothing) satisfies this. -/
def numStop : List Char → Bool
  | [] => true
  | c :: _ => !isDigitChar c && !(c = '.') && !(c = 'e') && !(c = 'E')

mutual

/-- Parse one JSON value: skip whitespace, then dispatch on the first
character.  The fuel argument only bounds the nesting the parser will
enter; it is not consumed by input characters. -/
def parseVal : Nat → List Char → Option (Json × List Char)
  | 0, _ => none
  | fuel + 1, s =>
    match skipWs s with
    | [] => none
    | c :: rest =>
      if c = lbrace then
        match skipWs rest with
        | [] => none
        | c2 :: rest2 =>
          if c2 = rbrace then some (.obj [], rest2)
          else
            (parseObjItems fuel rest).map (fun p => (Json.obj p.1, p.2))
      else if c = '[' then
        match skipWs rest with
        | [] => none
        | c2 :: rest2 =>
          if c2 = ']' then some (.arr [], rest2)
          else
            (parseArrItems fuel rest).map (fun p => (Json.arr p.1, p.2))
      else if c = '"' then
        (parseStrBody rest.length rest).map (fun p => (Json.str ⟨p.1⟩, p.2))
      else if c = 't' then
        match rest with
        | 'r' :: 'u' :: 'e' :: r => some (.bool true, r)
        | _ => none
      else if c = 'f' then
        match rest with
        | 'a' :: 'l' :: 's' :: 'e' :: r => some (.bool false, r)
        | _ => none
      else if c = 'n' then
        match rest with
        | 'u' :: 'l' :: 'l' :: r => some (.null, r)
        | _ => none
      else
        (parseNum (c :: rest)).map (fun p => (Json.num p.1, p.2))

/-- Parse the elements of a non-empty array up to and including the
closing bracket. -/
def parseArrItems : Nat → List Char → Option (List Json × List Char)
  | 0, _ => none
  | fuel + 1, s =>
    match parseVal fuel s with
    | none => none
    | some (v, r) =>
      match skipWs r with
      | ',' :: r2 => (parseArrItems fuel r2).map (fun p => (v :: p.1, p.2))
      | ']' :: r2 => some ([v], r2)
      | _ => none

/-- Parse the entries of a non-empty object up to and including the
closing brace. -/
def parseObjItems : Nat → List Char → Option (List (String × Json) × List Char)
  | 0, _ => none
  | fuel + 1, s =>
    match skipWs s with
    | '"' :: r =>
      match parseStrBody r.length r with
      | none => none
      | some (k, r2) =>
        match skipWs r2 with
        | ':' :: r3 =>
          match parseVal fuel r3 with
          | none => none
          | some (v, r4) =>
            match skipWs r4 with
            | ',' :: r5 => (parseObjItems fuel r5).map (fun p => ((⟨k⟩, v) :: p.1, p.2))
            | c5 :: r5 => if c5 = rbrace then some ([(⟨k⟩, v)], r5) else none
            | [] => none
        | _ => none
    | _ => none

end

mutual

/-- Nesting fuel sufficient for `parseVal` to parse the dump of a value:
one unit for the value itself plus, within containers, one unit per
element. -/
def needFuel : Json → Nat
  | .null => 1
  | .bool _ => 1
  | .num _ => 1
  | .str _ => 1
  | .arr xs => 1 + needFuelList xs
  | .obj es => 1 + needFuelEntries es

/-- Fuel needed by `parseArrItems` for these elements. -/
def needFuelList : List Json → Nat
  | [] => 0
  | x :: xs => 1 + max (needFuel x) (needFuelList xs)

/-- Fuel needed by `parseObjItems` for these entries. -/
def needFuelEntries : List (String × Json) → Nat
  | [] => 0
  | (_, v) :: es => 1 + max (needFuel v) (needFuelEntries es)

end

/-- `json.load` (compat.py line 26): parse one JSON value and require at
most trailing whitespace after it.  The fuel passed is generous enough for
any value that fits in the input. -/
def loads (s : List Char) : Option Json :=
  match parseVal (s.length + 1) s with
  | some (v, rest) => if skipWs rest = [] then some v else none
  | none => none

/-! ### The ExpectationRecord as a JSON object -/

/-- One optional field of the configuration dictionary: absent fields
contribute no entry. -/
def fieldSeg {α : Type} (name : String) (o : Option α) (f : α → Json) :
    List (String × Json) :=
  match o with
  | none => []
  | some a => [(name, f a)]

/-- The entry list of the JSON object a configuration dictionary denotes,
with the top-level keys listed in their sorted order
(`args < env < exitCode < preopens < stderr < stdin < stdout < timeout`). -/
def configEntries (c : Config) : List (String × Json) :=
  fieldSeg "args" c.args (fun args => Json.arr (args.map Json.str)) ++
   (fieldSeg "env" c.env (fun env => Json.obj (env.map (fun p => (p.1, Json.str p.2)))) ++
    (fieldSeg "exitCode" c.exitCode Json.num ++
     (fieldSeg "preopens" c.preopens
        (fun ps => Json.obj (ps.map (fun p => (p.1, Json.str p.2)))) ++
      (fieldSeg "stderr" c.stderr Json.str ++
       (fieldSeg "stdin" c.stdin Json.str ++
        (fieldSeg "stdout" c.stdout Json.str ++
         fieldSeg "timeout" c.timeout Json.num))))))

/-- The JSON object a configuration dictionary denotes. -/
def configToJson (c : Config) : Json := .obj (configEntries c)

/-- First value stored under key `k`. -/
def objLookup (k : String) : List (String × Json) → Option Json
  | [] => none
  | e :: es => if e.1 = k then some e.2 else objLookup k es

/-- Read an optional field: an absent key is fine (`some none`), a present
key must convert. -/
def optField {α : Type} (es : List (String × Json)) (k : String)
    (f : Json → Option α) : Option (Option α) :=
  match objLookup k es with
  | none => some none
  | some v => (f v).map some

/-- A JSON string. -/
def asStr : Json → Option String
  | .str s => some s
  | _ => none

/-- A JSON array of strings. -/
def strListOf : List Json → Option (List String)
  | [] => some []
  | .str s :: xs => (strListOf xs).map (fun l => s :: l)
  | _ => none

/-- A JSON object with string values, as a mapping. -/
def strPairsOf : List (String × Json) → Option (List (String × String))
  | [] => some []
  | (k, .str s) :: es => (strPairsOf es).map (fun l => (k, s) :: l)
  | _ => none

/-- The `args` field shape. -/
def argsOf : Json → Option (List String)
  | .arr xs => strListOf xs
  | _ => none

/-- The `env`/`preopens` field shape. -/
def envOf : Json → Option (List (String × String))
  | .obj es => strPairsOf es
  | _ => none

/-- An integer field. -/
def intOf : Json → Option Int
  | .num n => some n
  | _ => none

/-- Read a configuration dictionary back from its JSON object. -/
def jsonToConfig : Json → Option Config
  | .obj es => do
    let stdin ← optField es "stdin" asStr
    let env ← optField es "env" envOf
    let args ← optField es "args" argsOf
    let preopens ← optField es "preopens" envOf
    let stdout ← optField es "stdout" asStr
    let stderr ← optField es "stderr" asStr
    let exitCode ← optField es "exitCode" intOf
    let timeout ← optField es "timeout" intOf
    pure { stdin := stdin, env := env, args := args, preopens := preopens,
           stdout := stdout, stderr := stderr, exitCode := exitCode, timeout := timeout }
  | _ => none

/-- `load_config` (compat.py lines 23-28): `json.load` on the persisted
text, read back as a configuration record. -/
def load_config (s : List Char) : Option Config :=
  (loads s).bind jsonToConfig

end WasiTest

namespace WasiTest

/-- C1: grading a cell yields `ok` (Pass) exactly when stdout, stderr and
exit code match their expected values (defaults `""`, `""`, `0`) and the run
did not exceed the configured timeout; every other cell is `FAILED`. -/
theorem grading_pass_iff (b : GuestBehavior) (config : Config) :
    (cellStatus (test b config) = "ok" ↔
      (b.result.stdout = config.stdout.getD "" ∧
       b.result.stderr = config.stderr.getD "" ∧
       b.result.returncode = config.exitCode.getD 0 ∧
       b.duration ≤ ((config.timeout.getD 5 : Int) : Rat))) ∧
    (cellStatus (test b config) = "ok" ∨ cellStatus (test b config) = "FAILED") := by
  constructor
  · unfold test subprocess_run
    split
    · rename_i h
      simp only [cellStatus]
      constructor
      · intro hc; exact absurd hc (by decide)
      · rintro ⟨-, -, -, hle⟩
        split at h
        · exact absurd (lt_of_lt_of_le (by assumption) hle) (lt_irrefl _)
        · exact Except.noConfusion h
    · rename_i r h
      split at h
      · exact Except.noConfusion h
      · rename_i hnlt
        cases h
        by_cases ha : assert_result b.result config
        · simp only [ha, if_pos, cellStatus]
          have := ha
          unfold assert_result at this
          simp only [Bool.and_eq_true, beq_iff_eq] at this
          exact ⟨fun _ => ⟨this.1.1, this.1.2, this.2, le_of_not_lt hnlt⟩, fun _ => trivial⟩
        · simp only [ha, if_neg, cellStatus]
          constructor
          · intro hc; exact absurd hc (by simp [Bool.false_eq_true])
          · rintro ⟨h1, h2, h3, -⟩
            exact absurd (by unfold assert_result; simp [h1, h2, h3]) ha
  · unfold cellStatus
    split <;> simp

/-- C2 counterexample: the code reports an expectation mismatch
(`AssertionError`, the spec's Fail), a timeout, and an adapter-level
exception (the spec's Error) with the identical status word `FAILED`; the
claim that Fail is never reported identically to Error is false. -/
theorem outcome_not_three_valued :
    cellStatus (.error .assertionError) = "FAILED" ∧
    cellStatus (.error .timeoutExpired) = "FAILED" ∧
    cellStatus (.error .oserror) = "FAILED" ∧
    cellStatus (.error .assertionError) = cellStatus (.error .oserror) :=
  ⟨rfl, rfl, rfl, rfl⟩

/-- C2 amended: the recorded outcome is one of exactly two distinguishable
values, `ok` and `FAILED`; expectation mismatches, timeouts and
adapter-level exceptions are all collapsed into the same `FAILED`. -/
theorem outcome_two_valued (r : Except PyException Unit) :
    (cellStatus r = "ok" ∨ cellStatus r = "FAILED") ∧
    (∀ e e' : PyException, cellStatus (.error e) = cellStatus (.error e')) ∧
    ("ok" : String) ≠ "FAILED" := by
  refine ⟨?_, fun e e' => rfl, by decide⟩
  cases r <;> simp [cellStatus]

/-- C3 counterexample: with two matching record files the orchestrator does
not fail — it silently resolves to the first match and produces the row —
and with zero matches the uncaught `IndexError` aborts the whole run, so
the other (resolvable) artifact gets no row. -/
theorem resolution_counterexample :
    main_loop (fun _ _ _ => .ok ()) (fun _ => {}) [("a.wasm", ["m1", "m2"])] =
      .ok [("a.wasm", ["ok", "ok", "ok", "ok", "ok"])] ∧
    main_loop (fun _ _ _ => .ok ()) (fun _ => {}) [("a.wasm", []), ("b.wasm", ["m"])] =
      .error .indexError := by
  constructor <;> simp [main_loop, adapterOrder, cellStatus, Except.map]

/-- C3 amended: an artifact whose pattern matches one or more record files
resolves silently to the first match and its row is produced; an artifact
with zero matches raises an uncaught `IndexError` that aborts the run, so
no rows are produced for the remaining artifacts. -/
theorem resolution_amended (runCell : String → Config → AdapterName → Except PyException Unit)
    (configAt : String → Config) (fp m : String) (ms : List String)
    (rest : List (String × List String)) :
    main_loop runCell configAt ((fp, m :: ms) :: rest) =
      (main_loop runCell configAt rest).map
        (fun rows =>
          (fp, adapterOrder.map fun name => cellStatus (runCell fp (configAt m) name)) :: rows) ∧
    main_loop runCell configAt ((fp, ([] : List String)) :: rest) = .error .indexError := by
  constructor <;> simp [main_loop]

/-- C4: every adapter invocation runs under `timeout=config.get('timeout', 5)`;
a guest that would run longer than that bound is cut short —
`subprocess.run` kills the child and raises `TimeoutExpired` — and the cell
is recorded as a failure instead of the run hanging. -/
theorem timeout_enforced (b : GuestBehavior) (c : Config)
    (h : ((c.timeout.getD 5 : Int) : Rat) < b.duration) :
    test b c = .error .timeoutExpired ∧ cellStatus (test b c) = "FAILED" := by
  have ht : test b c = .error .timeoutExpired := by
    simp only [test, subprocess_run, if_pos h]
  rw [ht]
  exact ⟨rfl, rfl⟩

/-- Witness for `timeout_enforced`: a 7-second guest under a config without
a `timeout` key (so the default bound 5 applies). -/
theorem timeout_enforced_witness :
    ((({} : Config).timeout.getD 5 : Int) : Rat) < (7 : Rat) ∧
    test ⟨(7 : Rat), ⟨"", "", 0⟩⟩ {} = .error .timeoutExpired ∧
    cellStatus (test ⟨(7 : Rat), ⟨"", "", 0⟩⟩ {}) = "FAILED" := by
  have h : ((({} : Config).timeout.getD 5 : Int) : Rat) < (7 : Rat) := by norm_num
  exact ⟨h, timeout_enforced ⟨(7 : Rat), ⟨"", "", 0⟩⟩ {} h⟩

/-- C6: every adapter names the artifact under test as the guest program
and puts the record's extra args strictly after it: the two glue adapters
build the guest argv `[artifactPath, ...args]`, and each native adapter's
command decomposes as a part containing the artifact followed by exactly
the args. -/
theorem artifact_named_args_after (fp : String) (c : Config) :
    deno_guest_argv fp (deno_normalize c) = some (fp :: c.args.getD []) ∧
    node_guest_argv fp (node_normalize c) = some (fp :: c.args.getD []) ∧
    (∃ pre, test_wasmer_cmd fp c = pre ++ c.args.getD [] ∧ fp ∈ pre) ∧
    (∃ pre, test_wasmtime_cmd fp c = pre ++ c.args.getD [] ∧ fp ∈ pre) ∧
    (∃ pre, test_wasmedge_cmd fp c = pre ++ c.args.getD [] ∧ wasmedge_so fp ∈ pre) := by
  refine ⟨?_, ?_, ?_, ?_, ?_⟩
  · rcases henv : c.env with _ | e <;> rcases hargs : c.args with _ | as <;>
      simp [deno_normalize, deno_guest_argv, henv, hargs]
  · rcases henv : c.env with _ | e <;> rcases hargs : c.args with _ | as <;>
      simp [node_normalize, node_guest_argv, henv, hargs]
  · rcases hargs : c.args with _ | as
    · exact ⟨test_wasmer_cmd fp c, by simp [hargs], by simp [test_wasmer_cmd]⟩
    · refine ⟨["wasmer", "run", fp]
        ++ (match c.env with | none => [] | some e => env_flags e)
        ++ (match c.preopens with | none => [] | some ps => wasmer_mapdir_flags ps)
        ++ ["--"], ?_, by simp⟩
      simp [test_wasmer_cmd, hargs]
  · rcases hargs : c.args with _ | as
    · exact ⟨test_wasmtime_cmd fp c, by simp [hargs], by simp [test_wasmtime_cmd]⟩
    · refine ⟨["wasmtime", "run"]
        ++ (match c.env with | none => [] | some e => env_flags e)
        ++ (match c.preopens with | none => [] | some ps => wasmtime_mapdir_flags ps)
        ++ [fp] ++ ["--"], ?_, by simp⟩
      simp [test_wasmtime_cmd, hargs]
  · rcases hargs : c.args with _ | as
    · exact ⟨test_wasmedge_cmd fp c, by simp [hargs], by simp [test_wasmedge_cmd]⟩
    · refine ⟨["wasmedge"]
        ++ (match c.env with | none => [] | some e => env_flags e)
        ++ (match c.preopens with | none => [] | some ps => wasmedge_dir_flags ps)
        ++ [wasmedge_so fp], ?_, by simp⟩
      simp [test_wasmedge_cmd, hargs]

/-- C7: for a preopen entry `(g, h)`, `test_wasmer` emits the mapping flag
`g:h` (single separator) and `test_wasmtime` emits `g::h` (double
separator); both flags reach the respective command lines, and the two
spellings are never equal. -/
theorem mapdir_separators (g h : String) (ps : List (String × String))
    (c : Config) (fp : String)
    (hmem : (g, h) ∈ ps) (hpre : c.preopens = some ps) :
    (g ++ ":" ++ h) ∈ wasmer_mapdir_flags ps ∧
    (g ++ "::" ++ h) ∈ wasmtime_mapdir_flags ps ∧
    (g ++ ":" ++ h) ∈ test_wasmer_cmd fp c ∧
    (g ++ "::" ++ h) ∈ test_wasmtime_cmd fp c ∧
    (g ++ ":" ++ h) ≠ (g ++ "::" ++ h) := by
  have h1 : (g ++ ":" ++ h) ∈ wasmer_mapdir_flags ps := by
    simp only [wasmer_mapdir_flags, List.mem_flatMap]
    exact ⟨(g, h), hmem, by simp⟩
  have h2 : (g ++ "::" ++ h) ∈ wasmtime_mapdir_flags ps := by
    simp only [wasmtime_mapdir_flags, List.mem_flatMap]
    exact ⟨(g, h), hmem, by simp⟩
  refine ⟨h1, h2, ?_, ?_, ?_⟩
  · simp [test_wasmer_cmd, hpre, h1]
  · simp [test_wasmtime_cmd, hpre, h2]
  · intro heq
    have h' := congrArg String.length heq
    simp only [String.length_append] at h'
    have e1 : (":" : String).length = 1 := rfl
    have e2 : ("::" : String).length = 2 := rfl
    rw [e1, e2] at h'
    omega

/-- Witness for `mapdir_separators`: the concrete preopen entry
`("/data", "fixtures")`. -/
theorem mapdir_separators_witness :
    ("/data", "fixtures") ∈ [("/data", "fixtures")] ∧
    ({ preopens := some [("/data", "fixtures")] } : Config).preopens =
      some [("/data", "fixtures")] ∧
    ("/data" ++ ":" ++ "fixtures") ∈
      test_wasmer_cmd "a.wasm" { preopens := some [("/data", "fixtures")] } ∧
    ("/data" ++ "::" ++ "fixtures") ∈
      test_wasmtime_cmd "a.wasm" { preopens := some [("/data", "fixtures")] } ∧
    ("/data" ++ ":" ++ "fixtures") ≠ ("/data" ++ "::" ++ "fixtures") := by
  have h := mapdir_separators "/data" "fixtures" [("/data", "fixtures")]
    { preopens := some [("/data", "fixtures")] } "a.wasm" (by simp) rfl
  exact ⟨by simp, rfl, h.2.2.1, h.2.2.2.1, h.2.2.2.2⟩

/-- C9 counterexample: the deno and node adapters mutate the shared
configuration record: on a record without `env`/`args` keys,
`test_deno` (compat.py lines 63-67) and `test_node` (lines 104-108) install
`env = {}` and `args = []` in place, so the record differs before and after
the adapter's execution. -/
theorem config_mutated_counterexample :
    deno_normalize {} ≠ ({} : Config) ∧
    (deno_normalize {}).env = some [] ∧ ({} : Config).env = none ∧
    (deno_normalize {}).args = some [] ∧ ({} : Config).args = none ∧
    node_normalize {} ≠ ({} : Config) := by decide

/-- C9 amended: only the deno/node normalization of absent `env`/`args`
mutates the record — when both keys are present no adapter changes any
field — and even the mutating adapters leave `stdin`, `preopens`,
`stdout`, `stderr`, `exitCode` and `timeout` untouched, replacing
`env`/`args` by their defaulted values. -/
theorem config_mutation_amended (c : Config) :
    (c.env ≠ none → c.args ≠ none → deno_normalize c = c ∧ node_normalize c = c) ∧
    ((deno_normalize c).stdin = c.stdin ∧ (deno_normalize c).preopens = c.preopens ∧
     (deno_normalize c).stdout = c.stdout ∧ (deno_normalize c).stderr = c.stderr ∧
     (deno_normalize c).exitCode = c.exitCode ∧ (deno_normalize c).timeout = c.timeout) ∧
    node_normalize c = deno_normalize c ∧
    (deno_normalize c).env = some (c.env.getD []) ∧
    (deno_normalize c).args = some (c.args.getD []) := by
  obtain ⟨stdin, env, args, preopens, stdout, stderr, exitCode, tmo⟩ := c
  cases env <;> cases args <;> simp [deno_normalize, node_normalize]

/-- Witness for `config_mutation_amended`: a record with both keys present
is left unchanged. -/
theorem config_mutation_amended_witness :
    deno_normalize { env := some [], args := some ["x"] } =
      ({ env := some [], args := some ["x"] } : Config) ∧
    node_normalize { env := some [], args := some ["x"] } =
      ({ env := some [], args := some ["x"] } : Config) :=
  (config_mutation_amended { env := some [], args := some ["x"] }).1
    (by decide) (by decide)

/-- Helper for C10: appending one more segment to a directory that is not
inside `dir` cannot land inside `dir`. -/
theorem not_pathUnder_concat {dir l : FsPath} {x : String} (h : ¬ dir <+: l) :
    ¬ pathUnder dir (l ++ [x]) := by
  rintro ⟨hp, hne⟩
  rcases List.prefix_concat_iff.mp hp with heq | hpre'
  · exact hne heq
  · exact h hpre'

/-- C10 counterexample: with the harness running in `/repo` and the case
workspace at `/tmp/case0`, the deno adapter's glue file is created at
`/repo/.deno.ts` and the wasmedge adapter's compiled object at
`/repo/target/x.so` — neither inside the workspace nor inside the scratch
directory — so harness-created files are not confined to the case's
isolated workspace. -/
theorem workspace_escape_counterexample :
    harness_writes .deno ["repo"] ["tmp", "case0"] ["repo", "target", "x.wasm"] =
      [["repo", ".deno.ts"]] ∧
    ¬ pathUnder ["tmp", "case0"] ["repo", ".deno.ts"] ∧
    ¬ pathUnder (scratch_dir ["repo"]) ["repo", ".deno.ts"] ∧
    harness_writes .wasmedge ["repo"] ["tmp", "case0"] ["repo", "target", "x.wasm"] =
      [["repo", "target", "x.so"]] ∧
    ¬ pathUnder ["tmp", "case0"] ["repo", "target", "x.so"] ∧
    ¬ pathUnder (scratch_dir ["repo"]) ["repo", "target", "x.so"] := by decide

/-- C10 amended: the glue adapters write `.deno.ts`/`.node.js` into the
harness process working directory and the wasmedge adapter writes the
compiled object next to the artifact; whenever those directories are not
inside the case workspace the created files escape it.  The scratch
directory also lives in the process working directory, and only the
fixture snapshot is placed inside the per-case workspace; wasmer and
wasmtime create nothing. -/
theorem workspace_escape_amended (cwd workdir artdir : FsPath) (aname : String) :
    (¬ workdir <+: cwd →
      ¬ pathUnder workdir (cwd ++ [".deno.ts"]) ∧
      ¬ pathUnder workdir (cwd ++ [".node.js"]) ∧
      ¬ pathUnder workdir (scratch_dir cwd)) ∧
    (¬ workdir <+: artdir →
      ¬ pathUnder workdir (wasmedge_so_path (artdir ++ [aname]))) ∧
    harness_writes .deno cwd workdir (artdir ++ [aname]) = [cwd ++ [".deno.ts"]] ∧
    harness_writes .node cwd workdir (artdir ++ [aname]) = [cwd ++ [".node.js"]] ∧
    harness_writes .wasmer cwd workdir (artdir ++ [aname]) = [] ∧
    harness_writes .wasmtime cwd workdir (artdir ++ [aname]) = [] ∧
    harness_writes .wasmedge cwd workdir (artdir ++ [aname]) =
      [artdir ++ [(py_splitext aname).1 ++ ".so"]] ∧
    scratch_dir cwd = cwd ++ ["scratch"] ∧
    pathUnder workdir (fixtures_snapshot workdir) := by
  have hso : wasmedge_so_path (artdir ++ [aname]) =
      artdir ++ [(py_splitext aname).1 ++ ".so"] := by
    simp [wasmedge_so_path, List.getLast?_concat]
  refine ⟨?_, ?_, rfl, rfl, rfl, rfl, ?_, rfl, ?_⟩
  · intro h
    exact ⟨not_pathUnder_concat h, not_pathUnder_concat h, not_pathUnder_concat h⟩
  · intro h
    rw [hso]
    exact not_pathUnder_concat h
  · simp [harness_writes, hso]
  · refine ⟨List.prefix_append _ _, ?_⟩
    intro heq
    have := congrArg List.length heq
    simp [fixtures_snapshot] at this

/-- Witness for `workspace_escape_amended`: concrete working directory
`/repo` and workspace `/tmp/case0`. -/
theorem workspace_escape_amended_witness :
    ¬ (["tmp", "case0"] : FsPath) <+: ["repo"] ∧
    ¬ pathUnder ["tmp", "case0"] (["repo"] ++ [".deno.ts"]) := by
  have h : ¬ (["tmp", "case0"] : FsPath) <+: ["repo"] := by decide
  exact ⟨h,
    ((workspace_escape_amended ["repo"] ["tmp", "case0"] ["repo", "target"] "x.wasm").1 h).1⟩

/-- Helper for C8: when the head position is not a marker occurrence, the
split worker shifts one character into the accumulator. -/
theorem pySplitMarkerAux_cons (acc : List Char) (c : Char) (rest : List Char)
    (h : ¬(c = '/' ∧ ∃ r, rest = '/' :: r)) :
    pySplitMarkerAux acc (c :: rest) = pySplitMarkerAux (c :: acc) rest := by
  rw [pySplitMarkerAux.eq_def]
  split
  · simp_all
  · rename_i heq
    injection heq with h1 h2
    exact absurd ⟨h1, _, h2⟩ h
  · rename_i hno heq
    injection heq with h1 h2
    rw [← h1, ← h2]

/-- Helper for C8: `hasMarker` steps over a non-marker position. -/
theorem hasMarker_cons (c : Char) (rest : List Char)
    (h : ¬(c = '/' ∧ ∃ r, rest = '/' :: r)) :
    hasMarker (c :: rest) = hasMarker rest := by
  rw [hasMarker.eq_def]
  split
  · simp_all
  · rename_i heq
    injection heq with h1 h2
    exact absurd ⟨h1, _, h2⟩ h
  · rename_i hno heq
    injection heq with h1 h2
    rw [← h2]

/-- Helper for C8: a line without the marker splits into a single chunk. -/
theorem pySplitMarkerAux_no_marker (s : List Char) :
    ∀ acc, hasMarker s = false → pySplitMarkerAux acc s = [acc.reverse ++ s] := by
  induction s with
  | nil => intro acc _; simp [pySplitMarkerAux]
  | cons c rest ih =>
    intro acc h
    by_cases hm : c = '/' ∧ ∃ r, rest = '/' :: r
    · obtain ⟨rfl, r, rfl⟩ := hm
      exact absurd h (by rw [show hasMarker ('/' :: '/' :: r) = true from rfl]; simp)
    · rw [hasMarker_cons _ _ hm] at h
      rw [pySplitMarkerAux_cons _ _ _ hm, ih _ h]
      simp

/-- Helper for C8: the split worker cuts at the first marker occurrence
when no `/` occurs before it. -/
theorem pySplitMarkerAux_at_marker (pre : List Char) (s : List Char) :
    ∀ acc, '/' ∉ pre →
      pySplitMarkerAux acc (pre ++ ('/' :: '/' :: s)) =
        (acc.reverse ++ pre) :: pySplitMarkerAux [] s := by
  induction pre with
  | nil =>
    intro acc _
    rw [List.nil_append, show pySplitMarkerAux acc ('/' :: '/' :: s) =
      acc.reverse :: pySplitMarkerAux [] s from rfl]
    simp
  | cons c pre ih =>
    intro acc hpre
    have hc : c ≠ '/' := fun h => hpre (h ▸ List.mem_cons_self c pre)
    rw [List.cons_append, pySplitMarkerAux_cons _ _ _ (fun h => hc h.1),
      ih _ (fun h => hpre (List.mem_cons_of_mem c h))]
    simp

/-- C8 counterexample: a file whose annotation has no blank-line sentinel
before EOF makes extraction succeed with the accumulated text — it does not
fail — and a line containing the marker twice contributes only the text
between the first and second occurrence, not the entire remainder of the
line. -/
theorem prelude_extraction_counterexample :
    extract_prelude [['/', '/', '{', '}']] = .ok ['{', '}'] ∧
    extract_prelude [['/', '/', 'a', '/', '/', 'b', '\n'], ['\n']] = .ok ['a'] := by
  constructor <;> rfl

/-- C8 amended: extraction strips everything up to and including the first
marker of each leading line and accumulates the text up to the second
marker occurrence (the entire remainder only when the marker occurs once);
it stops at the first blank line; a pre-sentinel line with no marker raises
an uncaught `IndexError` (not a `TruncatedExpectation`); and end-of-file
without a blank-line sentinel returns the accumulated text successfully. -/
theorem prelude_extraction_amended
    (pre mid post line : List Char) (rest : List (List Char))
    (hpre : '/' ∉ pre) (hmid : '/' ∉ mid)
    (hnom : hasMarker line = false) (hne : line ≠ ['\n']) :
    (extract_prelude ((pre ++ ('/' :: '/' :: (mid ++ ('/' :: '/' :: post)))) :: rest) =
      (extract_prelude rest).map (fun tail => mid ++ tail)) ∧
    (hasMarker post = false →
      extract_prelude ((pre ++ ('/' :: '/' :: post)) :: rest) =
        (extract_prelude rest).map (fun tail => post ++ tail)) ∧
    extract_prelude (line :: rest) = .error .indexError ∧
    extract_prelude [] = .ok [] ∧
    extract_prelude (['\n'] :: rest) = .ok [] := by
  have hslash : ∀ (p s : List Char), p ++ ('/' :: '/' :: s) ≠ ['\n'] := by
    intro p s h
    have hmem : '/' ∈ p ++ ('/' :: '/' :: s) := by simp
    rw [h] at hmem
    simp at hmem
  refine ⟨?_, ?_, ?_, rfl, ?_⟩
  · rw [extract_prelude, if_neg (hslash _ _), pySplitMarker,
      pySplitMarkerAux_at_marker _ _ _ hpre, pySplitMarkerAux_at_marker _ _ _ hmid]
    simp
  · intro hpost
    rw [extract_prelude, if_neg (hslash _ _), pySplitMarker,
      pySplitMarkerAux_at_marker _ _ _ hpre, pySplitMarkerAux_no_marker _ _ hpost]
    simp
  · rw [extract_prelude, if_neg hne, pySplitMarker, pySplitMarkerAux_no_marker _ _ hnom]
    simp
  · rw [extract_prelude]
    simp

/-- Witness for `prelude_extraction_amended`: the line `//a//b` contributes
exactly `a`, and a marker-less line raises `IndexError`. -/
theorem prelude_extraction_amended_witness :
    extract_prelude [['/', '/', 'a', '/', '/', 'b', '\n']] =
      (extract_prelude []).map (fun tail => ['a'] ++ tail) ∧
    extract_prelude [['x', '\n']] = .error .indexError := by
  have h := prelude_extraction_amended [] ['a'] ['b', '\n'] ['x', '\n'] []
    (by decide) (by decide) (by decide) (by decide)
  exact ⟨h.1, h.2.2.1⟩

/-! ### Helper lemmas for the JSON round trip (claim C5) -/

theorem string_mk_data (s : String) : String.mk s.data = s := rfl

theorem skipWs_cons_false {c : Char} (h : isWsChar c = false) (s : List Char) :
    skipWs (c :: s) = c :: s := by
  simp [skipWs, h]

theorem skipWs_append_ws (ws : List Char) (h : ∀ c ∈ ws, isWsChar c = true)
    (s : List Char) : skipWs (ws ++ s) = skipWs s := by
  induction ws with
  | nil => rfl
  | cons c ws ih =>
    have hc := h c (List.mem_cons_self c ws)
    simp only [List.cons_append]
    simp [skipWs, hc, ih (fun d hd => h d (List.mem_cons_of_mem c hd))]

theorem pad_all_ws (n : Nat) : ∀ c ∈ pad n, isWsChar c = true := by
  intro c hc
  rw [pad] at hc
  rw [List.eq_of_mem_replicate hc]
  decide

theorem nl_pad_all_ws (n : Nat) : ∀ c ∈ '\n' :: pad n, isWsChar c = true := by
  intro c hc
  rcases List.mem_cons.mp hc with h | h
  · rw [h]; decide
  · exact pad_all_ws n c h

theorem hexVal_hexDigit : ∀ n, n < 16 → hexVal (hexDigit n) = some n := by decide

theorem parseHex4_dumpHex4 (n : Nat) (h : n < 65536) :
    parseHex4 (hexDigit (n / 4096 % 16)) (hexDigit (n / 256 % 16))
      (hexDigit (n / 16 % 16)) (hexDigit (n % 16)) = some n := by
  have e1 := hexVal_hexDigit (n / 4096 % 16) (Nat.mod_lt _ (by norm_num))
  have e2 := hexVal_hexDigit (n / 256 % 16) (Nat.mod_lt _ (by norm_num))
  have e3 := hexVal_hexDigit (n / 16 % 16) (Nat.mod_lt _ (by norm_num))
  have e4 := hexVal_hexDigit (n % 16) (Nat.mod_lt _ (by norm_num))
  simp only [parseHex4, e1, e2, e3, e4]
  exact congrArg some (by omega)

theorem char_valid_range (c : Char) :
    c.toNat < 0xd800 ∨ (0xdfff < c.toNat ∧ c.toNat < 0x110000) := c.valid

theorem parseUVal_ok (n : Nat) (r : List Char) (h : n < 0xd800 ∨ 0xdfff < n) :
    parseUVal n r = some (Char.ofNat n, r) := by
  simp only [parseUVal, if_pos h]

theorem parseUVal_pair (n : Nat) (g1 g2 g3 g4 : Char) (r2 : List Char) (m : Nat)
    (hn1 : 0xd800 ≤ n) (hn2 : n ≤ 0xdbff) (hhex : parseHex4 g1 g2 g3 g4 = some m)
    (hm : 0xdc00 ≤ m ∧ m ≤ 0xdfff) :
    parseUVal n ('\\' :: 'u' :: g1 :: g2 :: g3 :: g4 :: r2) =
      some (Char.ofNat (0x10000 + (n - 0xd800) * 0x400 + (m - 0xdc00)), r2) := by
  simp only [parseUVal, if_neg (show ¬(n < 0xd800 ∨ 0xdfff < n) by omega), if_pos hn2,
    hhex, if_pos hm]

theorem parseEscape_u (a b c d : Char) (r : List Char) (n : Nat)
    (hhex : parseHex4 a b c d = some n) :
    parseEscape ('u' :: a :: b :: c :: d :: r) = parseUVal n r := by
  have h : parseEscape ('u' :: a :: b :: c :: d :: r) =
      match parseHex4 a b c d with
      | none => none
      | some n => parseUVal n r := rfl
  rw [h, hhex]

theorem parseStrBody_backslash (fuel : Nat) (x : List Char) :
    parseStrBody (fuel + 1) ('\\' :: x) =
      match parseEscape x with
      | none => none
      | some (d, r) => (parseStrBody fuel r).map (fun p => (d :: p.1, p.2)) := rfl

/-- One escaped character round trips through the string scanner. -/
theorem parseStrBody_escapeChar (c : Char) (fuel : Nat) (s : List Char) :
    parseStrBody (fuel + 1) (escapeChar c ++ s) =
      (parseStrBody fuel s).map (fun p => (c :: p.1, p.2)) := by
  by_cases h1 : c = '"'
  · subst h1; rfl
  by_cases h2 : c = '\\'
  · subst h2; rfl
  by_cases h3 : c = Char.ofNat 8
  · subst h3; rfl
  by_cases h4 : c = Char.ofNat 12
  · subst h4; rfl
  by_cases h5 : c = '\n'
  · subst h5; rfl
  by_cases h6 : c = Char.ofNat 13
  · subst h6; rfl
  by_cases h7 : c = '\t'
  · subst h7; rfl
  by_cases h8 : 0x20 ≤ c.toNat ∧ c.toNat ≤ 0x7e
  · have he : escapeChar c = [c] := by
      simp only [escapeChar, if_neg h1, if_neg h2, if_neg h3, if_neg h4, if_neg h5,
        if_neg h6, if_neg h7, if_pos h8]
    rw [he, List.cons_append, List.nil_append, parseStrBody.eq_def]
    simp only [if_neg h1, if_neg h2, if_neg (show ¬ c.toNat < 0x20 by omega)]
  by_cases h9 : c.toNat < 0x10000
  · have he : escapeChar c = '\\' :: 'u' :: dumpHex4 c.toNat := by
      simp only [escapeChar, if_neg h1, if_neg h2, if_neg h3, if_neg h4, if_neg h5,
        if_neg h6, if_neg h7, if_neg h8, if_pos h9]
    have hval : c.toNat < 0xd800 ∨ 0xdfff < c.toNat := by
      rcases char_valid_range c with h | h
      · exact Or.inl h
      · exact Or.inr h.1
    rw [he]
    simp only [dumpHex4, List.cons_append, List.nil_append]
    rw [parseStrBody_backslash,
      parseEscape_u _ _ _ _ _ c.toNat (parseHex4_dumpHex4 c.toNat (by omega)),
      parseUVal_ok _ _ hval, Char.ofNat_toNat]
  · have hlt : c.toNat < 0x110000 := by
      rcases char_valid_range c with h | h
      · omega
      · exact h.2
    have he : escapeChar c =
        ('\\' :: 'u' :: dumpHex4 (0xd800 + (c.toNat - 0x10000) / 0x400)) ++
          ('\\' :: 'u' :: dumpHex4 (0xdc00 + (c.toNat - 0x10000) % 0x400)) := by
      simp only [escapeChar, if_neg h1, if_neg h2, if_neg h3, if_neg h4, if_neg h5,
        if_neg h6, if_neg h7, if_neg h8, if_neg h9]
    have hhi : (0xd800 + (c.toNat - 0x10000) / 0x400) < 65536 := by omega
    have hlo : (0xdc00 + (c.toNat - 0x10000) % 0x400) < 65536 := by
      have := Nat.mod_lt (c.toNat - 0x10000) (show 0 < 0x400 by norm_num)
      omega
    rw [he]
    simp only [dumpHex4, List.cons_append, List.nil_append]
    have hdivlt : (c.toNat - 0x10000) / 0x400 < 0x400 := by omega
    have hmodlt : (c.toNat - 0x10000) % 0x400 < 0x400 :=
      Nat.mod_lt _ (by norm_num)
    rw [parseStrBody_backslash,
      parseEscape_u _ _ _ _ _ _ (parseHex4_dumpHex4 _ hhi),
      parseUVal_pair (0xd800 + (c.toNat - 0x10000) / 0x400) _ _ _ _ _
        (0xdc00 + (c.toNat - 0x10000) % 0x400)
        (by omega) (by omega) (parseHex4_dumpHex4 _ hlo) (by omega)]
    have hc : Char.ofNat (0x10000 + ((0xd800 + (c.toNat - 0x10000) / 0x400) - 0xd800) * 0x400 +
        ((0xdc00 + (c.toNat - 0x10000) % 0x400) - 0xdc00)) = c := by
      have harith : 0x10000 + ((0xd800 + (c.toNat - 0x10000) / 0x400) - 0xd800) * 0x400 +
          ((0xdc00 + (c.toNat - 0x10000) % 0x400) - 0xdc00) = c.toNat := by
        have := Nat.div_add_mod (c.toNat - 0x10000) 0x400
        omega
      rw [harith, Char.ofNat_toNat]
    rw [hc]

/-- A whole escaped string body round trips through the string scanner. -/
theorem parseStrBody_escapeString (cs : List Char) :
    ∀ (fuel : Nat) (rest : List Char), cs.length < fuel →
      parseStrBody fuel (escapeString cs ++ ('"' :: rest)) = some (cs, rest) := by
  induction cs with
  | nil =>
    intro fuel rest hf
    obtain ⟨f, rfl⟩ : ∃ f, fuel = f + 1 := ⟨fuel - 1, by omega⟩
    rfl
  | cons c cs ih =>
    intro fuel rest hf
    obtain ⟨f, rfl⟩ : ∃ f, fuel = f + 1 := ⟨fuel - 1, by omega⟩
    have : escapeString (c :: cs) = escapeChar c ++ escapeString cs := by
      simp [escapeString]
    rw [this, List.append_assoc, parseStrBody_escapeChar,
      ih f rest (by simpa using Nat.lt_of_succ_lt_succ hf)]
    rfl

theorem digitChar_facts : ∀ d, d < 10 →
    isDigitChar (digitChar d) = true ∧ (digitChar d).toNat = 48 + d ∧
    isWsChar (digitChar d) = false ∧ digitChar d ≠ ']' ∧ digitChar d ≠ rbrace ∧
    digitChar d ≠ '-' ∧ digitChar d ≠ lbrace ∧ digitChar d ≠ '[' ∧ digitChar d ≠ '"' ∧
    digitChar d ≠ 't' ∧ digitChar d ≠ 'f' ∧ digitChar d ≠ 'n' := by decide

theorem natDumpAux_append (n : Nat) : ∀ acc, natDumpAux n acc = natDumpAux n [] ++ acc := by
  induction n using Nat.strong_induction_on with
  | _ n ih =>
    intro acc
    by_cases h : n < 10
    · rw [natDumpAux, if_pos h, natDumpAux, if_pos h]
      rfl
    · rw [natDumpAux, if_neg h,
        ih (n / 10) (Nat.div_lt_self (by omega) (by omega)) (digitChar (n % 10) :: acc)]
      conv_rhs => rw [natDumpAux, if_neg h,
        ih (n / 10) (Nat.div_lt_self (by omega) (by omega)) [digitChar (n % 10)]]
      simp

theorem natDump_cons (n : Nat) : ∃ d cs, natDump n = digitChar d :: cs ∧ d < 10 := by
  induction n using Nat.strong_induction_on with
  | _ n ih =>
    rw [natDump]
    by_cases h : n < 10
    · exact ⟨n, [], by rw [natDumpAux, if_pos h], h⟩
    · rw [natDumpAux, if_neg h, natDumpAux_append]
      obtain ⟨d, cs, he, hd⟩ := ih (n / 10) (Nat.div_lt_self (by omega) (by omega))
      rw [natDump] at he
      exact ⟨d, cs ++ [digitChar (n % 10)], by rw [he]; rfl, hd⟩

theorem natDump_digits (n : Nat) : ∀ c ∈ natDump n, isDigitChar c = true := by
  induction n using Nat.strong_induction_on with
  | _ n ih =>
    intro c hc
    rw [natDump] at hc
    by_cases h : n < 10
    · rw [natDumpAux, if_pos h] at hc
      rcases List.mem_singleton.mp hc with rfl
      exact (digitChar_facts n h).1
    · rw [natDumpAux, if_neg h, natDumpAux_append] at hc
      rcases List.mem_append.mp hc with h' | h'
      · exact ih (n / 10) (Nat.div_lt_self (by omega) (by omega)) c h'
      · rcases List.mem_singleton.mp h' with rfl
        exact (digitChar_facts _ (Nat.mod_lt _ (by omega))).1

theorem digitsToNat_natDump (n : Nat) : digitsToNat (natDump n) = n := by
  induction n using Nat.strong_induction_on with
  | _ n ih =>
    rw [natDump]
    by_cases h : n < 10
    · rw [natDumpAux, if_pos h]
      simp [digitsToNat, (digitChar_facts n h).2.1]
    · rw [natDumpAux, if_neg h, natDumpAux_append]
      have ihn := ih (n / 10) (Nat.div_lt_self (by omega) (by omega))
      rw [natDump] at ihn
      simp only [digitsToNat, List.foldl_append] at ihn ⊢
      rw [ihn]
      simp [(digitChar_facts _ (Nat.mod_lt n (by omega))).2.1]
      omega

theorem takeDigits_append (ds rest : List Char)
    (hds : ∀ c ∈ ds, isDigitChar c = true) (hrest : numStop rest = true) :
    takeDigits (ds ++ rest) = (ds, rest) := by
  induction ds with
  | nil =>
    simp only [List.nil_append]
    cases rest with
    | nil => rfl
    | cons c r =>
      have hc : isDigitChar c = false := by
        simp only [numStop, Bool.and_eq_true, Bool.not_eq_true'] at hrest
        exact hrest.1.1.1
      simp [takeDigits, hc]
  | cons d ds ih =>
    have hd := hds d (List.mem_cons_self d ds)
    simp only [List.cons_append]
    simp [takeDigits, hd, ih (fun c hc => hds c (List.mem_cons_of_mem d hc))]

theorem numStop_expStop (rest : List Char) (h : numStop rest = true) :
    expStop rest = true := by
  cases rest with
  | nil => rfl
  | cons c r =>
    simp only [numStop, Bool.and_eq_true] at h
    simp only [expStop, Bool.and_eq_true]
    exact ⟨⟨h.1.1.2, h.1.2⟩, h.2⟩

theorem parseNumTail_natDump (neg : Bool) (m : Nat) (rest : List Char)
    (hstop : numStop rest = true) :
    parseNumTail neg (natDump m ++ rest) =
      some (if neg then -(m : Int) else (m : Int), rest) := by
  obtain ⟨d, cs, hnd, hd10⟩ := natDump_cons m
  have hexp := numStop_expStop rest hstop
  simp only [parseNumTail]
  rw [takeDigits_append _ _ (natDump_digits m) hstop, hnd]
  simp only [hexp, if_true]
  rw [← hnd, digitsToNat_natDump]

theorem parseNum_intDump (n : Int) (rest : List Char) (hstop : numStop rest = true) :
    parseNum (intDump n ++ rest) = some (n, rest) := by
  by_cases hneg : n < 0
  · rw [intDump, if_pos hneg]
    simp only [List.cons_append]
    have hstep : parseNum ('-' :: (natDump (-n).toNat ++ rest)) =
        parseNumTail true (natDump (-n).toNat ++ rest) := rfl
    rw [hstep, parseNumTail_natDump true _ _ hstop]
    have : (((-n).toNat : Int)) = -n := Int.toNat_of_nonneg (by omega)
    rw [if_pos rfl]
    · simp [this]
  · rw [intDump, if_neg hneg]
    obtain ⟨d, cs, hnd, hd10⟩ := natDump_cons n.toNat
    rw [hnd, List.cons_append]
    have hstep : parseNum (digitChar d :: (cs ++ rest)) =
        if digitChar d = '-' then parseNumTail true (cs ++ rest)
        else parseNumTail false (digitChar d :: (cs ++ rest)) := rfl
    rw [hstep, if_neg (digitChar_facts d hd10).2.2.2.2.2.1, ← List.cons_append, ← hnd,
      parseNumTail_natDump false _ _ hstop]
    have : ((n.toNat : Int)) = n := Int.toNat_of_nonneg (by omega)
    simp [this]

theorem skipWs_idem (s : List Char) : skipWs (skipWs s) = skipWs s := by
  induction s with
  | nil => rfl
  | cons c rest ih =>
    by_cases h : isWsChar c = true
    · simp [skipWs, h, ih]
    · have h' : isWsChar c = false := by revert h; cases isWsChar c <;> simp
      rw [skipWs_cons_false h', skipWs_cons_false h']

theorem parseVal_ws (g : Nat) (ws s : List Char)
    (hws : ∀ c ∈ ws, isWsChar c = true) :
    parseVal (g + 1) (ws ++ s) = parseVal (g + 1) s := by
  have h : skipWs (ws ++ s) = skipWs s := skipWs_append_ws ws hws s
  conv_lhs => rw [parseVal.eq_def]
  conv_rhs => rw [parseVal.eq_def]
  simp only [h]

theorem needFuel_pos (v : Json) : 1 ≤ needFuel v := by
  cases v <;> simp [needFuel]

/-- The first character of any dumped value is not whitespace and is not a
closing bracket or brace. -/
theorem dumpVal_head (ind : Nat) (v : Json) :
    ∃ c cs, dumpVal ind v = c :: cs ∧ isWsChar c = false ∧ c ≠ ']' ∧ c ≠ rbrace := by
  cases v with
  | null => exact ⟨'n', _, rfl, by decide, by decide, by decide⟩
  | bool b =>
    cases b with
    | false => exact ⟨'f', _, rfl, by decide, by decide, by decide⟩
    | true => exact ⟨'t', _, rfl, by decide, by decide, by decide⟩
  | num n =>
    by_cases hn : n < 0
    · exact ⟨'-', _, by rw [show dumpVal ind (.num n) = intDump n from rfl, intDump, if_pos hn],
        by decide, by decide, by decide⟩
    · obtain ⟨d, cs, he, hd⟩ := natDump_cons n.toNat
      refine ⟨digitChar d, cs, ?_, (digitChar_facts d hd).2.2.1,
        (digitChar_facts d hd).2.2.2.1, (digitChar_facts d hd).2.2.2.2.1⟩
      rw [show dumpVal ind (.num n) = intDump n from rfl, intDump, if_neg hn, he]
  | str s => exact ⟨'"', _, rfl, by decide, by decide, by decide⟩
  | arr xs =>
    cases xs with
    | nil => exact ⟨'[', _, rfl, by decide, by decide, by decide⟩
    | cons x xs => exact ⟨'[', _, rfl, by decide, by decide, by decide⟩
  | obj es =>
    cases es with
    | nil => exact ⟨lbrace, _, rfl, by decide, by decide, by decide⟩
    | cons e es =>
      obtain ⟨k, v⟩ := e
      exact ⟨lbrace, _, rfl, by decide, by decide, by decide⟩

theorem parseVal_succ_str (g : Nat) (rest : List Char) :
    parseVal (g + 1) ('"' :: rest) =
      (parseStrBody rest.length rest).map (fun p => (Json.str ⟨p.1⟩, p.2)) := rfl

theorem parseVal_succ_other (g : Nat) (c : Char) (rest : List Char)
    (h1 : c ≠ lbrace) (h2 : c ≠ '[') (h3 : c ≠ '"') (h4 : c ≠ 't') (h5 : c ≠ 'f')
    (h6 : c ≠ 'n') (hw : isWsChar c = false) :
    parseVal (g + 1) (c :: rest) =
      (parseNum (c :: rest)).map (fun p => (Json.num p.1, p.2)) := by
  rw [parseVal.eq_def]
  simp only [skipWs_cons_false hw, if_neg h1, if_neg h2, if_neg h3, if_neg h4,
    if_neg h5, if_neg h6]

theorem parseVal_lbrack_cons (g : Nat) (rest0 : List Char) (c2 : Char)
    (rest2 : List Char) (hskip : skipWs rest0 = c2 :: rest2) (hne : c2 ≠ ']') :
    parseVal (g + 1) ('[' :: rest0) =
      (parseArrItems g rest0).map (fun p => (Json.arr p.1, p.2)) := by
  have hbase : parseVal (g + 1) ('[' :: rest0) =
      (match skipWs rest0 with
       | [] => none
       | c2 :: rest2 =>
         if c2 = ']' then some (.arr [], rest2)
         else (parseArrItems g rest0).map (fun p => (Json.arr p.1, p.2))) := rfl
  rw [hbase, hskip]
  simp only [if_neg hne]

theorem parseVal_lbrace_cons (g : Nat) (rest0 : List Char) (c2 : Char)
    (rest2 : List Char) (hskip : skipWs rest0 = c2 :: rest2) (hne : c2 ≠ rbrace) :
    parseVal (g + 1) (lbrace :: rest0) =
      (parseObjItems g rest0).map (fun p => (Json.obj p.1, p.2)) := by
  have hbase : parseVal (g + 1) (lbrace :: rest0) =
      (match skipWs rest0 with
       | [] => none
       | c2 :: rest2 =>
         if c2 = rbrace then some (.obj [], rest2)
         else (parseObjItems g rest0).map (fun p => (Json.obj p.1, p.2))) := rfl
  rw [hbase, hskip]
  simp only [if_neg hne]

theorem parseArrItems_step (g : Nat) (s : List Char) :
    parseArrItems (g + 1) s =
      (match parseVal g s with
       | none => none
       | some (v, r) =>
         match skipWs r with
         | ',' :: r2 => (parseArrItems g r2).map (fun p => (v :: p.1, p.2))
         | ']' :: r2 => some ([v], r2)
         | _ => none) := rfl

theorem parseObjItems_step (g : Nat) (s r : List Char)
    (hskip : skipWs s = '"' :: r) :
    parseObjItems (g + 1) s =
      (match parseStrBody r.length r with
       | none => none
       | some (k, r2) =>
         match skipWs r2 with
         | ':' :: r3 =>
           match parseVal g r3 with
           | none => none
           | some (v, r4) =>
             match skipWs r4 with
             | ',' :: r5 => (parseObjItems g r5).map (fun p => ((⟨k⟩, v) :: p.1, p.2))
             | c5 :: r5 => if c5 = rbrace then some ([(⟨k⟩, v)], r5) else none
             | [] => none
         | _ => none) := by
  have hbase : parseObjItems (g + 1) s =
      (match skipWs s with
       | '"' :: r =>
         match parseStrBody r.length r with
         | none => none
         | some (k, r2) =>
           match skipWs r2 with
           | ':' :: r3 =>
             match parseVal g r3 with
             | none => none
             | some (v, r4) =>
               match skipWs r4 with
               | ',' :: r5 => (parseObjItems g r5).map (fun p => ((⟨k⟩, v) :: p.1, p.2))
               | c5 :: r5 => if c5 = rbrace then some ([(⟨k⟩, v)], r5) else none
               | [] => none
           | _ => none
       | _ => none) := rfl
  rw [hbase, hskip]
  exact rfl

theorem escapeChar_length_pos (c : Char) : 1 ≤ (escapeChar c).length := by
  unfold escapeChar
  split_ifs <;> simp

theorem escapeString_length (cs : List Char) : cs.length ≤ (escapeString cs).length := by
  induction cs with
  | nil => simp [escapeString]
  | cons c cs ih =>
    have : escapeString (c :: cs) = escapeChar c ++ escapeString cs := by simp [escapeString]
    rw [this, List.length_append, List.length_cons]
    have := escapeChar_length_pos c
    omega

mutual

/-- Parsing the canonical dump of a value (after any leading whitespace)
returns exactly that value, leaving the rest of the input untouched. -/
theorem parse_dump_val : ∀ (v : Json) (ind fuel : Nat) (ws rest : List Char),
    (∀ c ∈ ws, isWsChar c = true) → needFuel v ≤ fuel → numStop rest = true →
    parseVal fuel (ws ++ (dumpVal ind v ++ rest)) = some (v, rest)
  | .null, ind, fuel, ws, rest, hws, hfuel, hstop => by
    obtain ⟨g, rfl⟩ : ∃ g, fuel = g + 1 :=
      ⟨fuel - 1, by have := needFuel_pos .null; omega⟩
    rw [parseVal_ws g _ _ hws]
    exact rfl
  | .bool b, ind, fuel, ws, rest, hws, hfuel, hstop => by
    obtain ⟨g, rfl⟩ : ∃ g, fuel = g + 1 :=
      ⟨fuel - 1, by have := needFuel_pos (.bool b); omega⟩
    rw [parseVal_ws g _ _ hws]
    cases b with
    | false => exact rfl
    | true => exact rfl
  | .num n, ind, fuel, ws, rest, hws, hfuel, hstop => by
    obtain ⟨g, rfl⟩ : ∃ g, fuel = g + 1 :=
      ⟨fuel - 1, by have := needFuel_pos (.num n); omega⟩
    rw [parseVal_ws g _ _ hws]
    by_cases hn : n < 0
    · have hd : dumpVal ind (.num n) = '-' :: natDump (-n).toNat := by
        rw [show dumpVal ind (.num n) = intDump n from rfl, intDump, if_pos hn]
      rw [hd, List.cons_append,
        parseVal_succ_other g '-' _ (by decide) (by decide) (by decide) (by decide)
          (by decide) (by decide) (by decide),
        ← List.cons_append, ← hd, show dumpVal ind (.num n) = intDump n from rfl,
        parseNum_intDump n rest hstop]
      rfl
    · obtain ⟨d, cs, he, hd10⟩ := natDump_cons n.toNat
      have hdv : dumpVal ind (.num n) = digitChar d :: cs := by
        rw [show dumpVal ind (.num n) = intDump n from rfl, intDump, if_neg hn, he]
      obtain ⟨hdig, htn, hwsd, hb1, hb2, hminus, hlb, hlk, hq, hct, hcf, hcn⟩ :=
        digitChar_facts d hd10
      rw [hdv, List.cons_append,
        parseVal_succ_other g _ _ hlb hlk hq hct hcf hcn hwsd,
        ← List.cons_append, ← hdv, show dumpVal ind (.num n) = intDump n from rfl,
        parseNum_intDump n rest hstop]
      rfl
  | .str s, ind, fuel, ws, rest, hws, hfuel, hstop => by
    obtain ⟨g, rfl⟩ : ∃ g, fuel = g + 1 :=
      ⟨fuel - 1, by have := needFuel_pos (.str s); omega⟩
    rw [parseVal_ws g _ _ hws]
    have hdv : dumpVal ind (.str s) = '"' :: (escapeString s.data ++ ['"']) := rfl
    rw [hdv, List.cons_append, List.append_assoc, List.singleton_append,
      parseVal_succ_str,
      parseStrBody_escapeString s.data _ rest
        (by
          simp only [List.length_append, List.length_cons]
          have := escapeString_length s.data
          omega)]
    exact rfl
  | .arr [], ind, fuel, ws, rest, hws, hfuel, hstop => by
    obtain ⟨g, rfl⟩ : ∃ g, fuel = g + 1 :=
      ⟨fuel - 1, by have := needFuel_pos (.arr []); omega⟩
    rw [parseVal_ws g _ _ hws]
    exact rfl
  | .arr (x :: xs), ind, fuel, ws, rest, hws, hfuel, hstop => by
    obtain ⟨g, rfl⟩ : ∃ g, fuel = g + 1 :=
      ⟨fuel - 1, by have := needFuel_pos (.arr (x :: xs)); omega⟩
    rw [parseVal_ws g _ _ hws]
    have hdv : dumpVal ind (.arr (x :: xs)) =
        '[' :: '\n' :: (pad (ind + 2) ++ (dumpVal (ind + 2) x ++
          (dumpArrItems (ind + 2) xs ++ ('\n' :: (pad ind ++ [']']))))) := rfl
    rw [hdv]
    simp only [List.cons_append, List.append_assoc, List.singleton_append,
      List.nil_append]
    obtain ⟨c0, cs0, hd0, hw0, hnb0, hnr0⟩ := dumpVal_head (ind + 2) x
    have hskip : skipWs ('\n' :: (pad (ind + 2) ++ (dumpVal (ind + 2) x ++
        (dumpArrItems (ind + 2) xs ++ ('\n' :: (pad ind ++ (']' :: rest))))))) =
        c0 :: (cs0 ++ (dumpArrItems (ind + 2) xs ++
          ('\n' :: (pad ind ++ (']' :: rest))))) := by
      rw [← List.cons_append, skipWs_append_ws _ (nl_pad_all_ws _), hd0,
        List.cons_append, skipWs_cons_false hw0]
    rw [parseVal_lbrack_cons g _ c0 _ hskip hnb0]
    have harr := parse_dump_arr x xs (ind + 2) ind g ('\n' :: pad (ind + 2)) rest
      (nl_pad_all_ws _) (by simp only [needFuel] at hfuel; omega) hstop
    simp only [List.cons_append] at harr
    rw [harr]
    rfl
  | .obj [], ind, fuel, ws, rest, hws, hfuel, hstop => by
    obtain ⟨g, rfl⟩ : ∃ g, fuel = g + 1 :=
      ⟨fuel - 1, by have := needFuel_pos (.obj []); omega⟩
    rw [parseVal_ws g _ _ hws]
    exact rfl
  | .obj ((k, v) :: es), ind, fuel, ws, rest, hws, hfuel, hstop => by
    obtain ⟨g, rfl⟩ : ∃ g, fuel = g + 1 :=
      ⟨fuel - 1, by have := needFuel_pos (.obj ((k, v) :: es)); omega⟩
    rw [parseVal_ws g _ _ hws]
    have hdv : dumpVal ind (.obj ((k, v) :: es)) =
        lbrace :: '\n' :: (pad (ind + 2) ++ (dumpStr k ++ (':' :: ' ' ::
          (dumpVal (ind + 2) v ++ (dumpObjItems (ind + 2) es ++
            ('\n' :: (pad ind ++ [rbrace]))))))) := rfl
    rw [hdv]
    simp only [List.cons_append, List.append_assoc, List.singleton_append,
      List.nil_append]
    have hskip : skipWs ('\n' :: (pad (ind + 2) ++ (dumpStr k ++ (':' :: ' ' ::
        (dumpVal (ind + 2) v ++ (dumpObjItems (ind + 2) es ++
          ('\n' :: (pad ind ++ (rbrace :: rest))))))))) =
        '"' :: ((escapeString k.data ++ ['"']) ++ (':' :: ' ' ::
          (dumpVal (ind + 2) v ++ (dumpObjItems (ind + 2) es ++
            ('\n' :: (pad ind ++ (rbrace :: rest))))))) := by
      rw [← List.cons_append, skipWs_append_ws _ (nl_pad_all_ws _),
        show dumpStr k = '"' :: (escapeString k.data ++ ['"']) from rfl,
        List.cons_append, skipWs_cons_false (by decide)]
    rw [parseVal_lbrace_cons g _ '"' _ hskip (by decide)]
    have hobj := parse_dump_obj k v es (ind + 2) ind g ('\n' :: pad (ind + 2)) rest
      (nl_pad_all_ws _) (by simp only [needFuel] at hfuel; omega) hstop
    simp only [List.cons_append] at hobj
    rw [hobj]
    rfl
termination_by v _ _ _ _ _ _ _ => sizeOf v

/-- Parsing the dumped items of a non-empty array (first value, then
comma-separated values, then the closing bracket) returns those items. -/
theorem parse_dump_arr : ∀ (x : Json) (xs : List Json) (ind ind2 fuel : Nat)
    (ws rest : List Char), (∀ c ∈ ws, isWsChar c = true) →
    needFuelList (x :: xs) ≤ fuel → numStop rest = true →
    parseArrItems fuel (ws ++ (dumpVal ind x ++ (dumpArrItems ind xs ++
      ('\n' :: (pad ind2 ++ (']' :: rest)))))) = some (x :: xs, rest)
  | x, [], ind, ind2, fuel, ws, rest, hws, hfuel, hstop => by
    obtain ⟨g, rfl⟩ : ∃ g, fuel = g + 1 :=
      ⟨fuel - 1, by simp only [needFuelList] at hfuel; omega⟩
    rw [parseArrItems_step]
    have hval := parse_dump_val x ind g ws
      (dumpArrItems ind [] ++ ('\n' :: (pad ind2 ++ (']' :: rest)))) hws
      (by simp only [needFuelList] at hfuel; omega) rfl
    rw [hval]
    have hskip : skipWs (dumpArrItems ind ([] : List Json) ++
        ('\n' :: (pad ind2 ++ (']' :: rest)))) = ']' :: rest := by
      rw [show dumpArrItems ind ([] : List Json) = [] from rfl, List.nil_append,
        ← List.cons_append, skipWs_append_ws _ (nl_pad_all_ws _),
        skipWs_cons_false (by decide)]
    show (match skipWs (dumpArrItems ind ([] : List Json) ++
        ('\n' :: (pad ind2 ++ (']' :: rest)))) with
      | ',' :: r2 => (parseArrItems g r2).map (fun p => (x :: p.1, p.2))
      | ']' :: r2 => some ([x], r2)
      | _ => none) = some ([x], rest)
    rw [hskip]
    exact rfl
  | x, y :: ys, ind, ind2, fuel, ws, rest, hws, hfuel, hstop => by
    obtain ⟨g, rfl⟩ : ∃ g, fuel = g + 1 :=
      ⟨fuel - 1, by simp only [needFuelList] at hfuel; omega⟩
    rw [parseArrItems_step]
    have hval := parse_dump_val x ind g ws
      (dumpArrItems ind (y :: ys) ++ ('\n' :: (pad ind2 ++ (']' :: rest)))) hws
      (by simp only [needFuelList] at hfuel; omega) rfl
    rw [hval]
    have hshape : dumpArrItems ind (y :: ys) ++ ('\n' :: (pad ind2 ++ (']' :: rest))) =
        ',' :: ('\n' :: (pad ind ++ (dumpVal ind y ++ (dumpArrItems ind ys ++
          ('\n' :: (pad ind2 ++ (']' :: rest))))))) := by
      rw [show dumpArrItems ind (y :: ys) =
        ',' :: '\n' :: (pad ind ++ (dumpVal ind y ++ dumpArrItems ind ys)) from rfl]
      simp
    rw [hshape]
    show (parseArrItems g ('\n' :: (pad ind ++ (dumpVal ind y ++ (dumpArrItems ind ys ++
        ('\n' :: (pad ind2 ++ (']' :: rest)))))))).map (fun p => (x :: p.1, p.2)) =
      some (x :: y :: ys, rest)
    have hrec := parse_dump_arr y ys ind ind2 g ('\n' :: pad ind) rest
      (nl_pad_all_ws _) (by simp only [needFuelList] at hfuel ⊢; omega) hstop
    simp only [List.cons_append] at hrec
    rw [hrec]
    rfl
termination_by x xs _ _ _ _ _ _ _ _ => 1 + sizeOf x + sizeOf xs

/-- Parsing the dumped entries of a non-empty object (first entry, then
comma-separated entries, then the closing brace) returns those entries. -/
theorem parse_dump_obj : ∀ (k : String) (v : Json) (es : List (String × Json))
    (ind ind2 fuel : Nat) (ws rest : List Char),
    (∀ c ∈ ws, isWsChar c = true) → needFuelEntries ((k, v) :: es) ≤ fuel →
    numStop rest = true →
    parseObjItems fuel (ws ++ (dumpStr k ++ (':' :: ' ' :: (dumpVal ind v ++
      (dumpObjItems ind es ++ ('\n' :: (pad ind2 ++ (rbrace :: rest)))))))) =
      some ((k, v) :: es, rest)
  | k, v, [], ind, ind2, fuel, ws, rest, hws, hfuel, hstop => by
    obtain ⟨g, rfl⟩ : ∃ g, fuel = g + 1 :=
      ⟨fuel - 1, by simp only [needFuelEntries] at hfuel; omega⟩
    have hskip : skipWs (ws ++ (dumpStr k ++ (':' :: ' ' :: (dumpVal ind v ++
        (dumpObjItems ind ([] : List (String × Json)) ++
          ('\n' :: (pad ind2 ++ (rbrace :: rest)))))))) =
        '"' :: (escapeString k.data ++ ('"' :: (':' :: ' ' :: (dumpVal ind v ++
          (dumpObjItems ind ([] : List (String × Json)) ++
            ('\n' :: (pad ind2 ++ (rbrace :: rest)))))))) := by
      rw [skipWs_append_ws _ hws,
        show dumpStr k = '"' :: (escapeString k.data ++ ['"']) from rfl]
      rw [List.cons_append, skipWs_cons_false (by decide)]
      simp
    rw [parseObjItems_step g _ _ hskip,
      parseStrBody_escapeString k.data _ _
        (by
          simp only [List.length_append, List.length_cons]
          have := escapeString_length k.data
          omega)]
    show (match skipWs (':' :: ' ' :: (dumpVal ind v ++
        (dumpObjItems ind ([] : List (String × Json)) ++
          ('\n' :: (pad ind2 ++ (rbrace :: rest)))))) with
      | ':' :: r3 =>
        match parseVal g r3 with
        | none => none
        | some (v', r4) =>
          match skipWs r4 with
          | ',' :: r5 => (parseObjItems g r5).map (fun p => ((⟨k.data⟩, v') :: p.1, p.2))
          | c5 :: r5 => if c5 = rbrace then some ([(⟨k.data⟩, v')], r5) else none
          | [] => none
      | _ => none) = some ([(k, v)], rest)
    rw [skipWs_cons_false (by decide)]
    have hval := parse_dump_val v ind g [' ']
      (dumpObjItems ind ([] : List (String × Json)) ++
        ('\n' :: (pad ind2 ++ (rbrace :: rest))))
      (by intro c hc; rcases List.mem_singleton.mp hc with rfl; decide)
      (by simp only [needFuelEntries] at hfuel; omega) rfl
    simp only [List.singleton_append] at hval
    show (match parseVal g (' ' :: (dumpVal ind v ++
        (dumpObjItems ind ([] : List (String × Json)) ++
          ('\n' :: (pad ind2 ++ (rbrace :: rest)))))) with
      | none => none
      | some (v', r4) =>
        match skipWs r4 with
        | ',' :: r5 => (parseObjItems g r5).map (fun p => ((⟨k.data⟩, v') :: p.1, p.2))
        | c5 :: r5 => if c5 = rbrace then some ([(⟨k.data⟩, v')], r5) else none
        | [] => none) = some ([(k, v)], rest)
    rw [hval]
    have hskip2 : skipWs (dumpObjItems ind ([] : List (String × Json)) ++
        ('\n' :: (pad ind2 ++ (rbrace :: rest)))) = rbrace :: rest := by
      rw [show dumpObjItems ind ([] : List (String × Json)) = [] from rfl,
        List.nil_append, ← List.cons_append, skipWs_append_ws _ (nl_pad_all_ws _),
        skipWs_cons_false (by decide)]
    show (match skipWs (dumpObjItems ind ([] : List (String × Json)) ++
        ('\n' :: (pad ind2 ++ (rbrace :: rest)))) with
      | ',' :: r5 => (parseObjItems g r5).map (fun p => ((⟨k.data⟩, v) :: p.1, p.2))
      | c5 :: r5 => if c5 = rbrace then some ([(⟨k.data⟩, v)], r5) else none
      | [] => none) = some ([(k, v)], rest)
    rw [hskip2]
    exact rfl
  | k, v, (k2, v2) :: es2, ind, ind2, fuel, ws, rest, hws, hfuel, hstop => by
    obtain ⟨g, rfl⟩ : ∃ g, fuel = g + 1 :=
      ⟨fuel - 1, by simp only [needFuelEntries] at hfuel; omega⟩
    have hskip : skipWs (ws ++ (dumpStr k ++ (':' :: ' ' :: (dumpVal ind v ++
        (dumpObjItems ind ((k2, v2) :: es2) ++
          ('\n' :: (pad ind2 ++ (rbrace :: rest)))))))) =
        '"' :: (escapeString k.data ++ ('"' :: (':' :: ' ' :: (dumpVal ind v ++
          (dumpObjItems ind ((k2, v2) :: es2) ++
            ('\n' :: (pad ind2 ++ (rbrace :: rest)))))))) := by
      rw [skipWs_append_ws _ hws,
        show dumpStr k = '"' :: (escapeString k.data ++ ['"']) from rfl]
      rw [List.cons_append, skipWs_cons_false (by decide)]
      simp
    rw [parseObjItems_step g _ _ hskip,
      parseStrBody_escapeString k.data _ _
        (by
          simp only [List.length_append, List.length_cons]
          have := escapeString_length k.data
          omega)]
    show (match skipWs (':' :: ' ' :: (dumpVal ind v ++
        (dumpObjItems ind ((k2, v2) :: es2) ++
          ('\n' :: (pad ind2 ++ (rbrace :: rest)))))) with
      | ':' :: r3 =>
        match parseVal g r3 with
        | none => none
        | some (v', r4) =>
          match skipWs r4 with
          | ',' :: r5 => (parseObjItems g r5).map (fun p => ((⟨k.data⟩, v') :: p.1, p.2))
          | c5 :: r5 => if c5 = rbrace then some ([(⟨k.data⟩, v')], r5) else none
          | [] => none
      | _ => none) = some ((k, v) :: (k2, v2) :: es2, rest)
    rw [skipWs_cons_false (by decide)]
    have hval := parse_dump_val v ind g [' ']
      (dumpObjItems ind ((k2, v2) :: es2) ++
        ('\n' :: (pad ind2 ++ (rbrace :: rest))))
      (by intro c hc; rcases List.mem_singleton.mp hc with rfl; decide)
      (by simp only [needFuelEntries] at hfuel; omega) rfl
    simp only [List.singleton_append] at hval
    show (match parseVal g (' ' :: (dumpVal ind v ++
        (dumpObjItems ind ((k2, v2) :: es2) ++
          ('\n' :: (pad ind2 ++ (rbrace :: rest)))))) with
      | none => none
      | some (v', r4) =>
        match skipWs r4 with
        | ',' :: r5 => (parseObjItems g r5).map (fun p => ((⟨k.data⟩, v') :: p.1, p.2))
        | c5 :: r5 => if c5 = rbrace then some ([(⟨k.data⟩, v')], r5) else none
        | [] => none) = some ((k, v) :: (k2, v2) :: es2, rest)
    rw [hval]
    have hshape : dumpObjItems ind ((k2, v2) :: es2) ++
        ('\n' :: (pad ind2 ++ (rbrace :: rest))) =
        ',' :: ('\n' :: (pad ind ++ (dumpStr k2 ++ (':' :: ' ' :: (dumpVal ind v2 ++
          (dumpObjItems ind es2 ++ ('\n' :: (pad ind2 ++ (rbrace :: rest))))))))) := by
      rw [show dumpObjItems ind ((k2, v2) :: es2) =
        ',' :: '\n' :: (pad ind ++ (dumpStr k2 ++ (':' :: ' ' ::
          (dumpVal ind v2 ++ dumpObjItems ind es2)))) from rfl]
      simp
    rw [hshape]
    show (parseObjItems g ('\n' :: (pad ind ++ (dumpStr k2 ++ (':' :: ' ' ::
        (dumpVal ind v2 ++ (dumpObjItems ind es2 ++
          ('\n' :: (pad ind2 ++ (rbrace :: rest)))))))))).map
        (fun p => ((⟨k.data⟩, v) :: p.1, p.2)) = some ((k, v) :: (k2, v2) :: es2, rest)
    have hrec := parse_dump_obj k2 v2 es2 ind ind2 g ('\n' :: pad ind) rest
      (nl_pad_all_ws _) (by simp only [needFuelEntries] at hfuel ⊢; omega) hstop
    simp only [List.cons_append] at hrec
    rw [hrec]
    rfl
termination_by k v es _ _ _ _ _ _ _ _ => 1 + sizeOf v + sizeOf es

end

mutual

/-- The dump of a value is at least as long as the fuel its parse needs. -/
theorem needFuel_le_len : ∀ (v : Json) (ind : Nat),
    needFuel v ≤ (dumpVal ind v).length
  | .null, ind => by
    rw [show dumpVal ind .null = ['n', 'u', 'l', 'l'] from rfl]
    simp [needFuel]
  | .bool b, ind => by
    cases b with
    | false =>
      rw [show dumpVal ind (.bool false) = ['f', 'a', 'l', 's', 'e'] from rfl]
      simp [needFuel]
    | true =>
      rw [show dumpVal ind (.bool true) = ['t', 'r', 'u', 'e'] from rfl]
      simp [needFuel]
  | .num n, ind => by
    rw [show dumpVal ind (.num n) = intDump n from rfl, intDump]
    have h1 : 1 ≤ (natDump (-n).toNat).length := by
      obtain ⟨d, cs, he, _⟩ := natDump_cons (-n).toNat
      rw [he]; simp
    have h2 : 1 ≤ (natDump n.toNat).length := by
      obtain ⟨d, cs, he, _⟩ := natDump_cons n.toNat
      rw [he]; simp
    split_ifs <;> (simp [needFuel]; try omega)
  | .str s, ind => by
    rw [show dumpVal ind (.str s) = '"' :: (escapeString s.data ++ ['"']) from rfl]
    simp [needFuel]
  | .arr [], ind => by
    rw [show dumpVal ind (.arr []) = ['[', ']'] from rfl]
    simp [needFuel, needFuelList]
  | .arr (x :: xs), ind => by
    rw [show dumpVal ind (.arr (x :: xs)) =
      '[' :: '\n' :: (pad (ind + 2) ++ (dumpVal (ind + 2) x ++
        (dumpArrItems (ind + 2) xs ++ ('\n' :: (pad ind ++ [']']))))) from rfl]
    have h1 := needFuel_le_len x (ind + 2)
    have h2 := needFuelList_le_len xs (ind + 2)
    have h3 : max (needFuel x) (needFuelList xs) ≤ needFuel x + needFuelList xs :=
      max_le_add_of_nonneg (by omega) (by omega)
    simp only [needFuel, needFuelList, List.length_cons, List.length_append]
    omega
  | .obj [], ind => by
    rw [show dumpVal ind (.obj []) = [lbrace, rbrace] from rfl]
    simp [needFuel, needFuelEntries]
  | .obj ((k, v) :: es), ind => by
    rw [show dumpVal ind (.obj ((k, v) :: es)) =
      lbrace :: '\n' :: (pad (ind + 2) ++ (dumpStr k ++ (':' :: ' ' ::
        (dumpVal (ind + 2) v ++ (dumpObjItems (ind + 2) es ++
          ('\n' :: (pad ind ++ [rbrace]))))))) from rfl]
    have h1 := needFuel_le_len v (ind + 2)
    have h2 := needFuelEntries_le_len es (ind + 2)
    have h3 : max (needFuel v) (needFuelEntries es) ≤ needFuel v + needFuelEntries es :=
      max_le_add_of_nonneg (by omega) (by omega)
    simp only [needFuel, needFuelEntries, List.length_cons, List.length_append]
    omega
termination_by v _ => sizeOf v

/-- The dumped later items of an array are at least as long as the fuel
their parse needs. -/
theorem needFuelList_le_len : ∀ (xs : List Json) (ind : Nat),
    needFuelList xs ≤ (dumpArrItems ind xs).length
  | [], ind => by
    rw [show dumpArrItems ind [] = [] from rfl]
    simp [needFuelList]
  | x :: xs, ind => by
    rw [show dumpArrItems ind (x :: xs) =
      ',' :: '\n' :: (pad ind ++ (dumpVal ind x ++ dumpArrItems ind xs)) from rfl]
    have h1 := needFuel_le_len x ind
    have h2 := needFuelList_le_len xs ind
    have h3 : max (needFuel x) (needFuelList xs) ≤ needFuel x + needFuelList xs :=
      max_le_add_of_nonneg (by omega) (by omega)
    simp only [needFuelList, List.length_cons, List.length_append]
    omega
termination_by xs _ => sizeOf xs

/-- The dumped later entries of an object are at least as long as the fuel
their parse needs. -/
theorem needFuelEntries_le_len : ∀ (es : List (String × Json)) (ind : Nat),
    needFuelEntries es ≤ (dumpObjItems ind es).length
  | [], ind => by
    rw [show dumpObjItems ind [] = [] from rfl]
    simp [needFuelEntries]
  | (k, v) :: es, ind => by
    rw [show dumpObjItems ind ((k, v) :: es) =
      ',' :: '\n' :: (pad ind ++ (dumpStr k ++ (':' :: ' ' ::
        (dumpVal ind v ++ dumpObjItems ind es)))) from rfl]
    have h1 := needFuel_le_len v ind
    have h2 := needFuelEntries_le_len es ind
    have h3 : max (needFuel v) (needFuelEntries es) ≤ needFuel v + needFuelEntries es :=
      max_le_add_of_nonneg (by omega) (by omega)
    simp only [needFuelEntries, List.length_cons, List.length_append]
    omega
termination_by es _ => sizeOf es

end

/-- `json.load` on the persisted text recovers the key-sorted value. -/
theorem loads_persist (v : Json) : loads (persist_config v) = some (sortKeysRec v) := by
  have hlen : needFuel (sortKeysRec v) ≤ (persist_config v).length + 1 := by
    have h := needFuel_le_len (sortKeysRec v) 0
    have : (persist_config v).length = (dumpVal 0 (sortKeysRec v)).length + 1 := by
      rw [show persist_config v = dumpVal 0 (sortKeysRec v) ++ ['\n'] from rfl]
      simp
    omega
  have h2 : parseVal ((persist_config v).length + 1) (persist_config v) =
      some (sortKeysRec v, ['\n']) := by
    have h := parse_dump_val (sortKeysRec v) 0 ((persist_config v).length + 1) [] ['\n']
      (fun c hc => absurd hc (List.not_mem_nil c)) hlen rfl
    simpa using h
  show (match parseVal ((persist_config v).length + 1) (persist_config v) with
    | some (w, rest) => if skipWs rest = [] then some w else none
    | none => none) = some (sortKeysRec v)
  rw [h2]
  exact rfl

theorem sortEntries_sorted (l : List (String × Json)) (h : entriesSortedB l = true) :
    sortEntries l = l := by
  induction l with
  | nil => rfl
  | cons e l ih =>
    have htail : entriesSortedB l = true := by
      cases l with
      | nil => rfl
      | cons f l2 =>
        simp only [entriesSortedB, Bool.and_eq_true] at h
        exact h.2
    have hstep : sortEntries (e :: l) = insertEntry e (sortEntries l) := rfl
    rw [hstep, ih htail]
    cases l with
    | nil => rfl
    | cons f l2 =>
      simp only [entriesSortedB, Bool.and_eq_true] at h
      simp [insertEntry, h.1]

theorem sortKeysList_map_str (xs : List String) :
    sortKeysList (xs.map Json.str) = xs.map Json.str := by
  induction xs with
  | nil => rfl
  | cons x xs ih => simp [sortKeysList, sortKeysRec, ih]

theorem sortKeysEntries_str_pairs (l : List (String × String)) :
    sortKeysEntries (l.map (fun p => (p.1, Json.str p.2))) =
      l.map (fun p => (p.1, Json.str p.2)) := by
  induction l with
  | nil => rfl
  | cons p l ih =>
    obtain ⟨a, b⟩ := p
    simp [sortKeysEntries, sortKeysRec, ih]

theorem pairsSorted_entriesSorted (l : List (String × String))
    (h : pairsSortedB l = true) :
    entriesSortedB (l.map (fun p => (p.1, Json.str p.2))) = true := by
  induction l with
  | nil => rfl
  | cons p l ih =>
    obtain ⟨a, b⟩ := p
    cases l with
    | nil => rfl
    | cons q l2 =>
      obtain ⟨a2, b2⟩ := q
      simp only [pairsSortedB, Bool.and_eq_true] at h
      simp only [List.map_cons, entriesSortedB, Bool.and_eq_true]
      exact ⟨h.1, by
        have := ih h.2
        simpa using this⟩

theorem sortKeysEntries_append (l1 l2 : List (String × Json)) :
    sortKeysEntries (l1 ++ l2) = sortKeysEntries l1 ++ sortKeysEntries l2 := by
  induction l1 with
  | nil => rfl
  | cons e l ih =>
    obtain ⟨k, v⟩ := e
    simp [sortKeysEntries, ih]

theorem mem_fieldSeg {α : Type} {e : String × Json} {name : String} {o : Option α}
    {f : α → Json} (h : e ∈ fieldSeg name o f) : e.1 = name := by
  cases o with
  | none => simp [fieldSeg] at h
  | some a =>
    simp only [fieldSeg, List.mem_singleton] at h
    rw [h]

theorem mem_append_fieldSeg {α : Type} {e : String × Json} {name : String}
    {o : Option α} {f : α → Json} {rest : List (String × Json)}
    (h : e ∈ fieldSeg name o f ++ rest) : e.1 = name ∨ e ∈ rest := by
  rcases List.mem_append.mp h with h | h
  · exact Or.inl (mem_fieldSeg h)
  · exact Or.inr h

theorem entriesSorted_seg {α : Type} {name : String} {o : Option α} {f : α → Json}
    {rest : List (String × Json)} (hrest : entriesSortedB rest = true)
    (hbound : ∀ e ∈ rest, keyLt name e.1 = true) :
    entriesSortedB (fieldSeg name o f ++ rest) = true := by
  cases o with
  | none => simpa [fieldSeg]
  | some a =>
    show entriesSortedB ((name, f a) :: rest) = true
    cases rest with
    | nil => rfl
    | cons r rs =>
      simp only [entriesSortedB, Bool.and_eq_true]
      exact ⟨hbound r (List.mem_cons_self r rs), hrest⟩

/-- The top-level keys of a configuration object are strictly sorted. -/
theorem configToJson_entries_sorted (c : Config) :
    entriesSortedB
      (fieldSeg "args" c.args (fun args => Json.arr (args.map Json.str)) ++
       (fieldSeg "env" c.env (fun env => Json.obj (env.map (fun p => (p.1, Json.str p.2)))) ++
        (fieldSeg "exitCode" c.exitCode Json.num ++
         (fieldSeg "preopens" c.preopens
            (fun ps => Json.obj (ps.map (fun p => (p.1, Json.str p.2)))) ++
          (fieldSeg "stderr" c.stderr Json.str ++
           (fieldSeg "stdin" c.stdin Json.str ++
            (fieldSeg "stdout" c.stdout Json.str ++
             fieldSeg "timeout" c.timeout Json.num))))))) = true := by
  have s8 : entriesSortedB (fieldSeg "timeout" c.timeout Json.num) = true := by
    cases c.timeout <;> rfl
  have b7 : ∀ e ∈ fieldSeg "timeout" c.timeout Json.num, keyLt "stdout" e.1 = true := by
    intro e he
    rw [mem_fieldSeg he]
    decide
  have s7 := entriesSorted_seg (o := c.stdout) (f := Json.str) s8 b7
  have b6 : ∀ e ∈ fieldSeg "stdout" c.stdout Json.str ++
      fieldSeg "timeout" c.timeout Json.num, keyLt "stdin" e.1 = true := by
    intro e he
    rcases mem_append_fieldSeg he with h | h
    · rw [h]; decide
    · rw [mem_fieldSeg h]; decide
  have s6 := entriesSorted_seg (o := c.stdin) (f := Json.str) s7 b6
  have b5 : ∀ e ∈ fieldSeg "stdin" c.stdin Json.str ++
      (fieldSeg "stdout" c.stdout Json.str ++ fieldSeg "timeout" c.timeout Json.num),
      keyLt "stderr" e.1 = true := by
    intro e he
    rcases mem_append_fieldSeg he with h | he
    · rw [h]; decide
    rcases mem_append_fieldSeg he with h | he
    · rw [h]; decide
    rw [mem_fieldSeg he]; decide
  have s5 := entriesSorted_seg (o := c.stderr) (f := Json.str) s6 b5
  have b4 : ∀ e ∈ fieldSeg "stderr" c.stderr Json.str ++
      (fieldSeg "stdin" c.stdin Json.str ++
       (fieldSeg "stdout" c.stdout Json.str ++ fieldSeg "timeout" c.timeout Json.num)),
      keyLt "preopens" e.1 = true := by
    intro e he
    rcases mem_append_fieldSeg he with h | he
    · rw [h]; decide
    rcases mem_append_fieldSeg he with h | he
    · rw [h]; decide
    rcases mem_append_fieldSeg he with h | he
    · rw [h]; decide
    rw [mem_fieldSeg he]; decide
  have s4 := entriesSorted_seg
    (o := c.preopens) (f := fun ps => Json.obj (ps.map (fun p => (p.1, Json.str p.2)))) s5 b4
  have b3 : ∀ e ∈ fieldSeg "preopens" c.preopens
      (fun ps => Json.obj (ps.map (fun p => (p.1, Json.str p.2)))) ++
      (fieldSeg "stderr" c.stderr Json.str ++
       (fieldSeg "stdin" c.stdin Json.str ++
        (fieldSeg "stdout" c.stdout Json.str ++ fieldSeg "timeout" c.timeout Json.num))),
      keyLt "exitCode" e.1 = true := by
    intro e he
    rcases mem_append_fieldSeg he with h | he
    · rw [h]; decide
    rcases mem_append_fieldSeg he with h | he
    · rw [h]; decide
    rcases mem_append_fieldSeg he with h | he
    · rw [h]; decide
    rcases mem_append_fieldSeg he with h | he
    · rw [h]; decide
    rw [mem_fieldSeg he]; decide
  have s3 := entriesSorted_seg (o := c.exitCode) (f := Json.num) s4 b3
  have b2 : ∀ e ∈ fieldSeg "exitCode" c.exitCode Json.num ++
      (fieldSeg "preopens" c.preopens
        (fun ps => Json.obj (ps.map (fun p => (p.1, Json.str p.2)))) ++
       (fieldSeg "stderr" c.stderr Json.str ++
        (fieldSeg "stdin" c.stdin Json.str ++
         (fieldSeg "stdout" c.stdout Json.str ++ fieldSeg "timeout" c.timeout Json.num)))),
      keyLt "env" e.1 = true := by
    intro e he
    rcases mem_append_fieldSeg he with h | he
    · rw [h]; decide
    rcases mem_append_fieldSeg he with h | he
    · rw [h]; decide
    rcases mem_append_fieldSeg he with h | he
    · rw [h]; decide
    rcases mem_append_fieldSeg he with h | he
    · rw [h]; decide
    rcases mem_append_fieldSeg he with h | he
    · rw [h]; decide
    rw [mem_fieldSeg he]; decide
  have s2 := entriesSorted_seg
    (o := c.env) (f := fun env => Json.obj (env.map (fun p => (p.1, Json.str p.2)))) s3 b2
  have b1 : ∀ e ∈ fieldSeg "env" c.env
      (fun env => Json.obj (env.map (fun p => (p.1, Json.str p.2)))) ++
      (fieldSeg "exitCode" c.exitCode Json.num ++
       (fieldSeg "preopens" c.preopens
         (fun ps => Json.obj (ps.map (fun p => (p.1, Json.str p.2)))) ++
        (fieldSeg "stderr" c.stderr Json.str ++
         (fieldSeg "stdin" c.stdin Json.str ++
          (fieldSeg "stdout" c.stdout Json.str ++ fieldSeg "timeout" c.timeout Json.num))))),
      keyLt "args" e.1 = true := by
    intro e he
    rcases mem_append_fieldSeg he with h | he
    · rw [h]; decide
    rcases mem_append_fieldSeg he with h | he
    · rw [h]; decide
    rcases mem_append_fieldSeg he with h | he
    · rw [h]; decide
    rcases mem_append_fieldSeg he with h | he
    · rw [h]; decide
    rcases mem_append_fieldSeg he with h | he
    · rw [h]; decide
    rcases mem_append_fieldSeg he with h | he
    · rw [h]; decide
    rw [mem_fieldSeg he]; decide
  exact entriesSorted_seg
    (o := c.args) (f := fun args => Json.arr (args.map Json.str)) s2 b1

/-- A configuration object is already in the canonical key-sorted form, so
`sort_keys=True` leaves it unchanged. -/
theorem sortKeysRec_configToJson (c : Config)
    (henv : pairsSortedB (c.env.getD []) = true)
    (hpre : pairsSortedB (c.preopens.getD []) = true) :
    sortKeysRec (configToJson c) = configToJson c := by
  have hseg_args : sortKeysEntries
      (fieldSeg "args" c.args (fun args => Json.arr (args.map Json.str))) =
      fieldSeg "args" c.args (fun args => Json.arr (args.map Json.str)) := by
    cases c.args with
    | none => rfl
    | some args => simp [fieldSeg, sortKeysEntries, sortKeysRec, sortKeysList_map_str]
  have hseg_env : sortKeysEntries
      (fieldSeg "env" c.env (fun env => Json.obj (env.map (fun p => (p.1, Json.str p.2))))) =
      fieldSeg "env" c.env (fun env => Json.obj (env.map (fun p => (p.1, Json.str p.2)))) := by
    rcases he : c.env with _ | env
    · rfl
    · have hs : pairsSortedB env = true := by rw [he] at henv; simpa using henv
      simp [fieldSeg, sortKeysEntries, sortKeysRec, sortKeysEntries_str_pairs,
        sortEntries_sorted _ (pairsSorted_entriesSorted env hs)]
  have hseg_exit : sortKeysEntries (fieldSeg "exitCode" c.exitCode Json.num) =
      fieldSeg "exitCode" c.exitCode Json.num := by
    cases c.exitCode <;> rfl
  have hseg_pre : sortKeysEntries
      (fieldSeg "preopens" c.preopens
        (fun ps => Json.obj (ps.map (fun p => (p.1, Json.str p.2))))) =
      fieldSeg "preopens" c.preopens
        (fun ps => Json.obj (ps.map (fun p => (p.1, Json.str p.2)))) := by
    rcases hp : c.preopens with _ | ps
    · rfl
    · have hs : pairsSortedB ps = true := by rw [hp] at hpre; simpa using hpre
      simp [fieldSeg, sortKeysEntries, sortKeysRec, sortKeysEntries_str_pairs,
        sortEntries_sorted _ (pairsSorted_entriesSorted ps hs)]
  have hseg_str : ∀ (name : String) (o : Option String),
      sortKeysEntries (fieldSeg name o Json.str) = fieldSeg name o Json.str := by
    intro name o
    cases o <;> rfl
  have hseg_tmo : sortKeysEntries (fieldSeg "timeout" c.timeout Json.num) =
      fieldSeg "timeout" c.timeout Json.num := by
    cases c.timeout <;> rfl
  show Json.obj _ = Json.obj _
  simp only [configEntries]
  rw [sortKeysEntries_append, sortKeysEntries_append, sortKeysEntries_append,
    sortKeysEntries_append, sortKeysEntries_append, sortKeysEntries_append,
    sortKeysEntries_append, hseg_args, hseg_env, hseg_exit, hseg_pre,
    hseg_str "stderr" c.stderr, hseg_str "stdin" c.stdin, hseg_str "stdout" c.stdout,
    hseg_tmo, sortEntries_sorted _ (configToJson_entries_sorted c)]

theorem objLookup_append (k : String) (l1 l2 : List (String × Json)) :
    objLookup k (l1 ++ l2) = (objLookup k l1).or (objLookup k l2) := by
  induction l1 with
  | nil => simp [objLookup]
  | cons e l ih =>
    simp only [List.cons_append, objLookup]
    split_ifs with h
    · rfl
    · exact ih

theorem objLookup_fieldSeg {α : Type} (k name : String) (o : Option α) (f : α → Json) :
    objLookup k (fieldSeg name o f) = if name = k then o.map f else none := by
  cases o with
  | none => simp [fieldSeg, objLookup]
  | some a => simp [fieldSeg, objLookup]

theorem strListOf_map (l : List String) : strListOf (l.map Json.str) = some l := by
  induction l with
  | nil => rfl
  | cons x l ih => simp [strListOf, ih]

theorem strPairsOf_map (l : List (String × String)) :
    strPairsOf (l.map (fun p => (p.1, Json.str p.2))) = some l := by
  induction l with
  | nil => rfl
  | cons p l ih =>
    obtain ⟨a, b⟩ := p
    simp [strPairsOf, ih]

theorem objLookup_config_args (c : Config) :
    objLookup "args" (configEntries c) =
      c.args.map (fun args => Json.arr (args.map Json.str)) := by
  simp +decide [configEntries, objLookup_append, objLookup_fieldSeg]

theorem objLookup_config_env (c : Config) :
    objLookup "env" (configEntries c) =
      c.env.map (fun env => Json.obj (env.map (fun p => (p.1, Json.str p.2)))) := by
  simp +decide [configEntries, objLookup_append, objLookup_fieldSeg]

theorem objLookup_config_exitCode (c : Config) :
    objLookup "exitCode" (configEntries c) = c.exitCode.map Json.num := by
  simp +decide [configEntries, objLookup_append, objLookup_fieldSeg]

theorem objLookup_config_preopens (c : Config) :
    objLookup "preopens" (configEntries c) =
      c.preopens.map (fun ps => Json.obj (ps.map (fun p => (p.1, Json.str p.2)))) := by
  simp +decide [configEntries, objLookup_append, objLookup_fieldSeg]

theorem objLookup_config_stderr (c : Config) :
    objLookup "stderr" (configEntries c) = c.stderr.map Json.str := by
  simp +decide [configEntries, objLookup_append, objLookup_fieldSeg]

theorem objLookup_config_stdin (c : Config) :
    objLookup "stdin" (configEntries c) = c.stdin.map Json.str := by
  simp +decide [configEntries, objLookup_append, objLookup_fieldSeg]

theorem objLookup_config_stdout (c : Config) :
    objLookup "stdout" (configEntries c) = c.stdout.map Json.str := by
  simp +decide [configEntries, objLookup_append, objLookup_fieldSeg]

theorem objLookup_config_timeout (c : Config) :
    objLookup "timeout" (configEntries c) = c.timeout.map Json.num := by
  simp +decide [configEntries, objLookup_append, objLookup_fieldSeg]

theorem optField_config_stdin (c : Config) :
    optField (configEntries c) "stdin" asStr = some c.stdin := by
  rw [optField, objLookup_config_stdin]
  cases c.stdin with
  | none => rfl
  | some s => rfl

theorem optField_config_stdout (c : Config) :
    optField (configEntries c) "stdout" asStr = some c.stdout := by
  rw [optField, objLookup_config_stdout]
  cases c.stdout with
  | none => rfl
  | some s => rfl

theorem optField_config_stderr (c : Config) :
    optField (configEntries c) "stderr" asStr = some c.stderr := by
  rw [optField, objLookup_config_stderr]
  cases c.stderr with
  | none => rfl
  | some s => rfl

theorem optField_config_exitCode (c : Config) :
    optField (configEntries c) "exitCode" intOf = some c.exitCode := by
  rw [optField, objLookup_config_exitCode]
  cases c.exitCode with
  | none => rfl
  | some n => rfl

theorem optField_config_timeout (c : Config) :
    optField (configEntries c) "timeout" intOf = some c.timeout := by
  rw [optField, objLookup_config_timeout]
  cases c.timeout with
  | none => rfl
  | some n => rfl

theorem optField_config_args (c : Config) :
    optField (configEntries c) "args" argsOf = some c.args := by
  rw [optField, objLookup_config_args]
  cases c.args with
  | none => rfl
  | some args =>
    show (argsOf (Json.arr (args.map Json.str))).map some = some (some args)
    rw [show argsOf (Json.arr (args.map Json.str)) =
      strListOf (args.map Json.str) from rfl, strListOf_map]
    rfl

theorem optField_config_env (c : Config) :
    optField (configEntries c) "env" envOf = some c.env := by
  rw [optField, objLookup_config_env]
  cases c.env with
  | none => rfl
  | some env =>
    show (envOf (Json.obj (env.map (fun p => (p.1, Json.str p.2))))).map some =
      some (some env)
    rw [show envOf (Json.obj (env.map (fun p => (p.1, Json.str p.2)))) =
      strPairsOf (env.map (fun p => (p.1, Json.str p.2))) from rfl, strPairsOf_map]
    rfl

theorem optField_config_preopens (c : Config) :
    optField (configEntries c) "preopens" envOf = some c.preopens := by
  rw [optField, objLookup_config_preopens]
  cases c.preopens with
  | none => rfl
  | some ps =>
    show (envOf (Json.obj (ps.map (fun p => (p.1, Json.str p.2))))).map some =
      some (some ps)
    rw [show envOf (Json.obj (ps.map (fun p => (p.1, Json.str p.2)))) =
      strPairsOf (ps.map (fun p => (p.1, Json.str p.2))) from rfl, strPairsOf_map]
    rfl

/-- Reading a configuration object back through the record layer recovers the
original configuration dictionary field by field. -/
theorem jsonToConfig_configToJson (c : Config) :
    jsonToConfig (configToJson c) = some c := by
  show jsonToConfig (Json.obj (configEntries c)) = some c
  simp only [jsonToConfig, optField_config_stdin, optField_config_env,
    optField_config_args, optField_config_preopens, optField_config_stdout,
    optField_config_stderr, optField_config_exitCode, optField_config_timeout,
    Option.bind_eq_bind, Option.some_bind]
  rfl

/-- C5: persisting a configuration dictionary with
`json.dumps(config, sort_keys=True, indent=2)` plus a trailing newline
(build.py lines 54-56) and reading it back with `json.load`
(compat.py lines 23-28) yields the same configuration: the artifact/record
round trip is lossless for every well-formed configuration dictionary
(its `env` and `preopens` tables in canonical strictly key-sorted form). -/
theorem persist_load_roundtrip (c : Config)
    (henv : pairsSortedB (c.env.getD []) = true)
    (hpre : pairsSortedB (c.preopens.getD []) = true) :
    load_config (persist_config (configToJson c)) = some c := by
  show (loads (persist_config (configToJson c))).bind jsonToConfig = some c
  rw [loads_persist, sortKeysRec_configToJson c henv hpre]
  exact jsonToConfig_configToJson c

theorem persist_load_roundtrip_witness :
    load_config (persist_config (configToJson
      { stdin := some "hi", env := some [("A", "1"), ("B", "2")],
        args := some ["x", "y"], preopens := some [("fixtures", "fixtures")],
        stdout := some "out", stderr := some "", exitCode := some 0,
        timeout := some 7 })) =
    some { stdin := some "hi", env := some [("A", "1"), ("B", "2")],
           args := some ["x", "y"], preopens := some [("fixtures", "fixtures")],
           stdout := some "out", stderr := some "", exitCode := some 0,
           timeout := some 7 } :=
  persist_load_roundtrip
    { stdin := some "hi", env := some [("A", "1"), ("B", "2")],
      args := some ["x", "y"], preopens := some [("fixtures", "fixtures")],
      stdout := some "out", stderr := some "", exitCode := some 0,
      timeout := some 7 } (by decide) (by decide)

end WasiTest
